import Mathlib

/-!
# HateBlock content script: the scanning and classification engine

A verification development over `content.js`: the lexical filter
(`containsHateKeyword`), the classification step (`analyzeText` and the
callback of `classify`), the suppressor (`blockContentElement`), the container
resolver (`getContainerElementForNode`), the scanner (`scanDocument`) and the
mutation tracker (`startMonitoring` and the storage listener).
-/

namespace HateBlock

/-! ## Strings -/

/-- A string value, as its sequence of characters. -/
abbrev JsString := List Char

/-- The characters `String.prototype.trim` removes (WhiteSpace and LineTerminator). -/
def isWhiteSpace (c : Char) : Bool :=
  let n := c.toNat
  n == 0x09 || n == 0x0A || n == 0x0B || n == 0x0C || n == 0x0D || n == 0x20 ||
  n == 0xA0 || n == 0x1680 || (0x2000 ≤ n && n ≤ 0x200A) || n == 0x2028 ||
  n == 0x2029 || n == 0x202F || n == 0x205F || n == 0x3000 || n == 0xFEFF

/-- The method `text.trim()`: white space removed from both ends. -/
def trim (text : JsString) : JsString :=
  ((text.dropWhile isWhiteSpace).reverse.dropWhile isWhiteSpace).reverse

/-- The lower-case form `String.prototype.toLowerCase` gives one character.
The letters `A`-`Z` become `a`-`z`, the Kelvin sign U+212A becomes `k` and the
dotted capital I, U+0130, becomes `i` followed by the combining dot U+0307.
These are the characters whose lower-case form contains a letter `a`-`z` that
the character itself is not; the lower-case form of every other character
contains no letter `a`-`z` unless it is that letter, and the character is left
as it is. -/
def lowerCaseOf (c : Char) : List Char :=
  if c.toNat = 0x212A then ['k']
  else if c.toNat = 0x130 then ['i', Char.ofNat 0x307]
  else [c.toLower]

/-- The method `text.toLowerCase()`. -/
def toLowerCase : JsString → JsString
  | [] => []
  | c :: cs => lowerCaseOf c ++ toLowerCase cs

/-- The method `text.includes(word)`: `word` occurs in `text` at some position. -/
def includes : JsString → JsString → Bool
  | [], word => word.isEmpty
  | c :: cs, word => word.isPrefixOf (c :: cs) || includes cs word

/-- The property `text.length`: the number of UTF-16 code units. -/
def jsLength (text : JsString) : Nat :=
  (text.map fun c => if c.toNat < 0x10000 then 1 else 2).sum

/-- The constant `HATE_KEYWORDS`. -/
def HATE_KEYWORDS : List JsString :=
  ["hate".toList, "kill".toList, "stupid".toList, "idiot".toList, "dumb".toList,
   "ugly".toList, "fag".toList, "nigger".toList, "racist".toList, "bigot".toList,
   "homophobe".toList, "moron".toList, "terrorist".toList, "scum".toList]

/-- The function `containsHateKeyword(text)`. -/
def containsHateKeyword (text : JsString) : Bool :=
  if text.isEmpty then false
  else
    let lowerText := toLowerCase text
    HATE_KEYWORDS.any fun word => includes lowerText word

/-! ## The document tree -/

/-- A node of the document tree: a text node or an element. The `id` stands for
the identity of the node object. -/
inductive DNode where
  | text (id : Nat) (nodeValue : JsString)
  | elem (id : Nat) (tagName : String) (classList : List String) (children : List DNode)

namespace DNode

/-- The identity of a node. -/
def id : DNode → Nat
  | text i _ => i
  | elem i _ _ _ => i

/-- The children of a node (none for a text node). -/
def children : DNode → List DNode
  | text _ _ => []
  | elem _ _ _ cs => cs

/-- The class list of an element (empty for a text node). -/
def classList : DNode → List String
  | text _ _ => []
  | elem _ _ cl _ => cl

/-- The property `node.nodeValue`: the text of a text node (null, here the
empty text, for an element). -/
def nodeValue : DNode → JsString
  | text _ v => v
  | elem _ _ _ _ => []

/-- The test `node.nodeType === Node.TEXT_NODE`. -/
def isText : DNode → Bool
  | text _ _ => true
  | elem _ _ _ _ => false

mutual
/-- The property `node.textContent`: the text of all text nodes below, in order. -/
def textContent : DNode → JsString
  | text _ v => v
  | elem _ _ _ cs => textContentList cs
/-- The text of a list of sibling nodes. -/
def textContentList : List DNode → JsString
  | [] => []
  | c :: cs => textContent c ++ textContentList cs
end

mutual
/-- The text nodes of a subtree in document order, the node itself included. -/
def textNodes : DNode → List DNode
  | text i v => [text i v]
  | elem _ _ _ cs => textNodesList cs
/-- The text nodes below a list of sibling nodes, in document order. -/
def textNodesList : List DNode → List DNode
  | [] => []
  | c :: cs => textNodes c ++ textNodesList cs
end

mutual
/-- The largest identity used in a subtree. -/
def maxId : DNode → Nat
  | text i _ => i
  | elem i _ _ cs => max i (maxIdList cs)
/-- The largest identity used below a list of sibling nodes. -/
def maxIdList : List DNode → Nat
  | [] => 0
  | c :: cs => max (maxId c) (maxIdList cs)
end

mutual
/-- The first node in document order that has identity `i`. -/
def find (i : Nat) : DNode → Option DNode
  | text j v => if j = i then some (text j v) else none
  | elem j t cl cs => if j = i then some (elem j t cl cs) else findList i cs
/-- The first node with identity `i` below a list of sibling nodes. -/
def findList (i : Nat) : List DNode → Option DNode
  | [] => none
  | c :: cs =>
    match find i c with
    | some r => some r
    | none => findList i cs
end

mutual
/-- The ancestors of the node with identity `i`, the parent first and the root
of the tree last; `none` when the node is not in the tree. -/
def ancestors (i : Nat) : DNode → Option (List DNode)
  | text j _ => if j = i then some [] else none
  | elem j t cl cs =>
    if j = i then some []
    else (ancestorsList i cs).map fun chain => chain ++ [elem j t cl cs]
/-- The ancestors of node `i` inside a list of sibling nodes. -/
def ancestorsList (i : Nat) : List DNode → Option (List DNode)
  | [] => none
  | c :: cs =>
    match ancestors i c with
    | some r => some r
    | none => ancestorsList i cs
end

mutual
/-- The siblings that follow node `i` (its `nextSibling` first); `none` when
the node is not below this one. -/
def nextSiblings (i : Nat) : DNode → Option (List DNode)
  | text _ _ => none
  | elem _ _ _ cs => nextSiblingsList i cs
/-- The siblings that follow node `i`, searched in a list of sibling nodes. -/
def nextSiblingsList (i : Nat) : List DNode → Option (List DNode)
  | [] => none
  | c :: cs =>
    if c.id = i then some cs
    else
      match nextSiblings i c with
      | some r => some r
      | none => nextSiblingsList i cs
end

mutual
/-- The call `ref.parentNode.insertBefore(new, ref.nextSibling)`: `new` becomes
the next sibling of node `ref`; `none` when `ref` is not below this node. -/
def insertAfter (ref : Nat) (new : DNode) : DNode → Option DNode
  | text _ _ => none
  | elem j t cl cs => (insertAfterList ref new cs).map fun cs2 => elem j t cl cs2
/-- The insertion of `new` after node `ref`, searched in a list of sibling nodes. -/
def insertAfterList (ref : Nat) (new : DNode) : List DNode → Option (List DNode)
  | [] => none
  | c :: cs =>
    if c.id = ref then some (c :: new :: cs)
    else
      match insertAfter ref new c with
      | some c2 => some (c2 :: cs)
      | none => (insertAfterList ref new cs).map fun cs2 => c :: cs2
end

/-- The call `classList.add(cls)` on a class list: a token set keeps one copy. -/
def addToken (cl : List String) (cls : String) : List String :=
  if cl.contains cls then cl else cl ++ [cls]

/-- A node after `classList.add(cls)`; a text node has no class list and is
left as it is. -/
def mark (cls : String) : DNode → DNode
  | text j v => text j v
  | elem j t cl cs => elem j t (addToken cl cls) cs

mutual
/-- The call `classList.add(cls)` on the node with identity `i`; `none` when
there is no such node in the subtree. -/
def addClass (i : Nat) (cls : String) : DNode → Option DNode
  | text j v => if j = i then some (text j v) else none
  | elem j t cl cs =>
    if j = i then some (elem j t (addToken cl cls) cs)
    else (addClassList i cls cs).map fun cs2 => elem j t cl cs2
/-- The call `classList.add(cls)` on element `i`, searched in a list of sibling nodes. -/
def addClassList (i : Nat) (cls : String) : List DNode → Option (List DNode)
  | [] => none
  | c :: cs =>
    match addClass i cls c with
    | some c2 => some (c2 :: cs)
    | none => (addClassList i cls cs).map fun cs2 => c :: cs2
end

end DNode

/-- The document: its tree (the root has no parent node) and the identity of the
element `document.body`. -/
structure Document where
  root : DNode
  body : Nat

namespace Document

/-- The node object with identity `i`, when it is in the tree. -/
def node (d : Document) (i : Nat) : Option DNode :=
  d.root.find i

/-- The property `node.parentElement` of node `i`. -/
def parentElement (d : Document) (i : Nat) : Option DNode :=
  match d.root.ancestors i with
  | some (p :: _) => some p
  | _ => none

/-- The class list of element `i` (empty when the element is not in the tree). -/
def classListOf (d : Document) (i : Nat) : List String :=
  match d.node i with
  | some n => n.classList
  | none => []

/-- The siblings that follow node `i`, nearest first. -/
def nextSiblings (d : Document) (i : Nat) : List DNode :=
  (d.root.nextSiblings i).getD []

/-- An identity no node of the tree has: the one a newly created node gets. -/
def freshId (d : Document) : Nat :=
  d.root.maxId + 1

/-- The call `classList.add(cls)` on element `i` of the document. -/
def classListAdd (d : Document) (i : Nat) (cls : String) : Document :=
  { d with root := (d.root.addClass i cls).getD d.root }

/-- The call `parent.insertBefore(new, ref.nextSibling)` for the parent of `ref`. -/
def insertAfter (d : Document) (ref : Nat) (new : DNode) : Document :=
  { d with root := (DNode.insertAfter ref new d.root).getD d.root }

end Document

/-! ## The state of the page and of the content script -/

/-- An entry built by `logBlockedContent`. -/
structure AuditEntry where
  text : JsString
  url : JsString
  time : JsString

/-- One element of the array `classify` resolves to; `prob` is the value read as
`pred.results[0].probabilities[1]`. -/
structure Prediction where
  label : String
  prob : ℚ

/-- The first argument of `analyzeText`: a string or a node. -/
inductive NodeOrText where
  | string (s : JsString)
  | node (n : DNode)

/-- The value `nodeOrText.nodeType === Node.ELEMENT_NODE ? nodeOrText : null`. -/
def NodeOrText.asElement : NodeOrText → Option Nat
  | .node (.elem i _ _ _) => some i
  | _ => none

/-- A call of `toxicityModel.classify([text])` whose promise has not settled,
with the target the callback will block. -/
structure PendingClassify where
  text : JsString
  targetElem : Option Nat

/-- An invocation of one of the two entry points of the pipeline, recorded for
the statements about which calls happen. -/
inductive Call where
  | analyzeText (nodeOrText : NodeOrText) (containerElement : Option Nat)
  | scanDocument (rootElement : Option Nat)

/-- The element argument of a recorded call: the container of an `analyzeText`
call, the root of a `scanDocument` call. -/
def Call.element : Call → Option Nat
  | .analyzeText _ c => c
  | .scanDocument r => r

/-- Whether the recorded call is a `scanDocument` call. -/
def Call.isScan : Call → Bool
  | .analyzeText _ _ => false
  | .scanDocument _ => true

/-- The page, the globals of `content.js` and what the browser holds for it. -/
structure World where
  /-- the document tree -/
  doc : Document
  /-- the rendered text `element.innerText` of an element -/
  innerText : DNode → JsString
  /-- the value `location.href` -/
  href : JsString
  /-- the value `new Date().toISOString()` -/
  now : JsString
  /-- the variable `enabled` -/
  enabled : Bool
  /-- the variable `toxicityThreshold` -/
  toxicityThreshold : ℚ
  /-- the variable `toxicityModel`: whether it holds a model instance -/
  toxicityModel : Bool
  /-- the variable `mutationObserver`: the observer created last, if any -/
  mutationObserver : Option Nat
  /-- the observers subscribed to `document.body`, oldest first -/
  observing : List Nat
  /-- the number of observers created so far -/
  observersCreated : Nat
  /-- whether `toxicity` and `tf` are defined -/
  librariesPresent : Bool
  /-- whether the callback of the initial `chrome.storage.local.get` is still due -/
  settingsPending : Bool
  /-- the calls of `toxicity.load` that have not settled -/
  loadsInFlight : Nat
  /-- the calls of `classify` that have not settled, oldest first -/
  classifying : List PendingClassify
  /-- the entries `logBlockedContent` was called for, oldest first -/
  logged : List AuditEntry
  /-- the recorded calls of `analyzeText` and `scanDocument`, oldest first -/
  calls : List Call

/-- The class `blockContentElement` adds to a suppressed element. -/
def blurredClass : String := "hateblock-blurred"

/-- The class of the label `blockContentElement` inserts. -/
def labelClass : String := "hateblock-label"

/-- The text of the label. -/
def labelText : JsString := " [Blocked by HateBlock]".toList

/-- Whether a node is a label element made by `blockContentElement`. -/
def isLabel : DNode → Bool
  | .elem _ tag cl _ => tag == "span" && cl.contains labelClass
  | .text _ _ => false

/-- The number of label elements among the siblings that follow node `i`. -/
def labelsAfter (d : Document) (i : Nat) : Nat :=
  (d.nextSiblings i).countP isLabel

/-- The function `logBlockedContent(text)`. -/
def logBlockedContent (w : World) (text : JsString) : World :=
  { w with logged := w.logged ++ [{ text := text, url := w.href, time := w.now }] }

/-- The function `blockContentElement(element, textContent)`. The root of the
tree has no parent node, so the test `element.parentNode` is the test for a
parent element. -/
def blockContentElement (w : World) (element : Option Nat) (textContent : JsString) : World :=
  match element with
  | none => w
  | some el =>
    let marked := w.doc.classListAdd el blurredClass
    let label : DNode :=
      .elem marked.freshId "span" [labelClass] [.text (marked.freshId + 1) labelText]
    let labelled :=
      match marked.parentElement el with
      | some _ => marked.insertAfter el label
      | none => marked
    logBlockedContent { w with doc := labelled } textContent

/-- The text `analyzeText` takes from its first argument. -/
def NodeOrText.text (innerText : DNode → JsString) : NodeOrText → JsString
  | .string s => s
  | .node (.text _ v) => v
  | .node (.elem i t cl cs) =>
    let rendered := innerText (.elem i t cl cs)
    if rendered.isEmpty then (DNode.elem i t cl cs).textContent else rendered

/-- The test `!text || text.trim() === ""`. -/
def isBlank (text : JsString) : Bool :=
  text.isEmpty || (trim text).isEmpty

/-- The function `analyzeText(nodeOrText, containerElement)` up to the point where
it returns: the keyword branch runs to its end, the classifier branch leaves a
pending `classify` call. -/
def analyzeText (w : World) (nodeOrText : NodeOrText) (containerElement : Option Nat) : World :=
  let w := { w with calls := w.calls ++ [.analyzeText nodeOrText containerElement] }
  let text := nodeOrText.text w.innerText
  if isBlank text then w
  else if containsHateKeyword text then
    let targetElem := containerElement <|> nodeOrText.asElement
    blockContentElement w targetElem text
  else if w.toxicityModel then
    let targetElem := containerElement <|> nodeOrText.asElement
    { w with classifying := w.classifying ++ [{ text := text, targetElem := targetElem }] }
  else w

/-- The loop of the `classify` callback over the predictions: the pair
`(toxic, maxProb)` it ends with. -/
def judge (toxicityThreshold : ℚ) (predictions : List Prediction) : Bool × ℚ :=
  predictions.foldl
    (fun acc pred =>
      let maxProb := if pred.prob > acc.2 then pred.prob else acc.2
      let toxic := if pred.prob ≥ toxicityThreshold then true else acc.1
      (toxic, maxProb))
    (false, 0)

/-- The callback `analyzeText` passes to `classify(...).then`, run for the pending
call at position `k` when its promise resolves to `predictions`. -/
def onClassified (w : World) (k : Nat) (predictions : List Prediction) : World :=
  match w.classifying[k]? with
  | none => w
  | some pending =>
    let w := { w with classifying := w.classifying.eraseIdx k }
    if (judge w.toxicityThreshold predictions).1 then
      blockContentElement w pending.targetElem pending.text
    else w

/-- The handler `analyzeText` passes to `.catch`: the promise at position `k`
is rejected and only a console message is written. -/
def onClassifyError (w : World) (k : Nat) : World :=
  { w with classifying := w.classifying.eraseIdx k }

/-! ## The container resolver and the scanner -/

/-- The comparison `parentLength > elLength * 1.5` of two string lengths, with
both sides doubled so that it stays within the natural numbers. -/
def exceedsRatio (parentLength elLength : Nat) : Bool :=
  decide (2 * parentLength > 3 * elLength)

/-- The `while` loop of `getContainerElementForNode`: `el` is the current
element and `above` its ancestors, `el.parentElement` first. -/
def climb (body : Nat) : DNode → List DNode → DNode
  | el, [] => el
  | el, parent :: above =>
    if el.id ≠ body ∧ ¬ el.textContent.isEmpty ∧ jsLength el.textContent < 500 then
      if parent.id = body then el
      else if ¬ parent.textContent.isEmpty ∧
          exceedsRatio (jsLength parent.textContent) (jsLength el.textContent) then el
      else climb body parent above
    else el

/-- The function `getContainerElementForNode(textNode)`. -/
def getContainerElementForNode (d : Document) (textNode : Nat) : Option DNode :=
  match d.root.ancestors textNode with
  | some (el :: above) => some (climb d.body el above)
  | _ => none

/-- The call `walker.nextNode()` of the TreeWalker over the text nodes below
`root`, with `current` the node returned last (`none` before the first call).
The walker reads the tree as it is at the time of the call. -/
def nextNode (d : Document) (root : Nat) (current : Option Nat) : Option DNode :=
  match d.node root with
  | none => none
  | some r =>
    let below := DNode.textNodesList r.children
    match current with
    | none => below.head?
    | some c => ((below.dropWhile fun n => n.id != c).drop 1).head?

/-- The `while` loop of `scanDocument`; `none` when the loop has not ended
after `fuel` calls of `nextNode`. -/
def scanLoop (root : Nat) : Nat → World → List Nat → Option Nat → Option World
  | 0, _, _, _ => none
  | fuel + 1, w, processedElements, current =>
    match nextNode w.doc root current with
    | none => some w
    | some node =>
      let text := node.nodeValue
      if isBlank text then scanLoop root fuel w processedElements (some node.id)
      else if ((w.doc.parentElement node.id).any fun p => processedElements.contains p.id) then
        scanLoop root fuel w processedElements (some node.id)
      else
        match getContainerElementForNode w.doc node.id with
        | some container =>
          let analysisText := (NodeOrText.node container).text w.innerText
          scanLoop root fuel (analyzeText w (.string analysisText) (some container.id))
            (container.id :: processedElements) (some node.id)
        | none =>
          scanLoop root fuel (analyzeText w (.string text) none) processedElements (some node.id)

/-- The function `scanDocument(rootElement)`; `none` when it has not returned
after `fuel` steps of its loop. -/
def scanDocument (fuel : Nat) (w : World) (rootElement : Option Nat) : Option World :=
  let w := { w with calls := w.calls ++ [.scanDocument rootElement] }
  let root := rootElement.getD w.doc.body
  scanLoop root fuel w [] none

/-! ## The mutation tracker and the settings listeners -/

/-- The field `type` of a mutation record. -/
inductive MutationType where
  | childList
  | characterData
  | attributes
  deriving DecidableEq

/-- A mutation record, its nodes given by identity. -/
structure MutationRecord where
  type : MutationType
  target : Nat
  addedNodes : List Nat

/-- The function `startMonitoring()`. -/
def startMonitoring (w : World) : World :=
  if !w.enabled then w
  else
    { w with
      mutationObserver := some w.observersCreated
      observing := w.observing ++ [w.observersCreated]
      observersCreated := w.observersCreated + 1 }

/-- The inner loop of the observer callback over `mut.addedNodes`. A record of a
node that is not in the tree is passed over. -/
def handleAddedNodes (fuel : Nat) : World → List Nat → Option World
  | w, [] => some w
  | w, n :: rest =>
    match w.doc.node n with
    | some (.text i v) =>
      handleAddedNodes fuel
        (analyzeText w (.node (.text i v)) ((w.doc.parentElement i).map DNode.id)) rest
    | some (.elem i _ _ _) =>
      match scanDocument fuel w (some i) with
      | some w2 => handleAddedNodes fuel w2 rest
      | none => none
    | none => handleAddedNodes fuel w rest

/-- The part of the observer callback for `mut.type === "characterData"`. -/
def handleCharacterData (w : World) (mutation : MutationRecord) : World :=
  if mutation.type = .characterData then
    match w.doc.node mutation.target with
    | some (.text i v) =>
      analyzeText w (.node (.text i v)) ((w.doc.parentElement i).map DNode.id)
    | _ => w
  else w

/-- The callback `startMonitoring` gives to `new MutationObserver`. -/
def observerCallback (fuel : Nat) : World → List MutationRecord → Option World
  | w, [] => some w
  | w, mutation :: rest =>
    match handleAddedNodes fuel w mutation.addedNodes with
    | some w2 => observerCallback fuel (handleCharacterData w2 mutation) rest
    | none => none

/-- A batch of records handed to each of the given observers in turn. -/
def deliver (fuel : Nat) (records : List MutationRecord) : World → List Nat → Option World
  | w, [] => some w
  | w, _ :: others =>
    match observerCallback fuel w records with
    | some w2 => deliver fuel records w2 others
    | none => none

/-- The function `loadToxicityModel()` up to the call of `toxicity.load`. -/
def loadToxicityModel (w : World) : World :=
  if !w.librariesPresent then w
  else { w with loadsInFlight := w.loadsInFlight + 1 }

/-- The callback of `chrome.storage.local.get(["enabled", "threshold"], ...)`. -/
def onSettingsRead (w : World) (enabled : Option Bool) (threshold : Option ℚ) : World :=
  let w := { w with enabled := enabled.getD w.enabled }
  let w := { w with toxicityThreshold := threshold.getD w.toxicityThreshold }
  if !w.enabled then w else loadToxicityModel w

/-- The callback of `toxicity.load(thresholds).then`. -/
def onModelLoaded (fuel : Nat) (w : World) : Option World :=
  let w := { w with toxicityModel := true }
  match scanDocument fuel w none with
  | some w2 => some (startMonitoring w2)
  | none => none

/-- The part of the storage listener for `changes.threshold`. -/
def onThresholdChange (w : World) (threshold : Option ℚ) : World :=
  match threshold with
  | some newValue => { w with toxicityThreshold := newValue }
  | none => w

/-- The listener given to `chrome.storage.onChanged`; `enabled` and `threshold`
are the `newValue` of `changes.enabled` and `changes.threshold` when present. -/
def onStorageChanged (fuel : Nat) (w : World) (area : String) (enabled : Option Bool)
    (threshold : Option ℚ) : Option World :=
  if area ≠ "local" then some w
  else
    match enabled with
    | none => some (onThresholdChange w threshold)
    | some newValue =>
      let w := { w with enabled := newValue }
      if !newValue then
        match w.mutationObserver with
        | none => some w
        | some observer =>
          some (onThresholdChange { w with observing := w.observing.erase observer } threshold)
      else
        match scanDocument fuel (startMonitoring w) none with
        | some w2 => some (onThresholdChange w2 threshold)
        | none => none

/-- What can happen to the content script after it has been loaded. -/
inductive Event where
  /-- the stored settings are read -/
  | settingsRead (enabled : Option Bool) (threshold : Option ℚ)
  /-- the model has finished loading -/
  | modelLoaded
  /-- loading the model has failed -/
  | modelLoadFailed
  /-- a setting has changed in the store -/
  | storageChanged (area : String) (enabled : Option Bool) (threshold : Option ℚ)
  /-- the host page has rewritten the tree -/
  | pageChanged (root : DNode)
  /-- a batch of mutation records is delivered -/
  | mutationBatch (records : List MutationRecord)
  /-- the pending classification at position `k` resolves -/
  | classified (k : Nat) (predictions : List Prediction)
  /-- the pending classification at position `k` is rejected -/
  | classifyFailed (k : Nat)

/-- One event handled by the content script; an event that cannot happen in the
state leaves it as it is; `none` when a scan does not end within `fuel`. -/
def step (fuel : Nat) (w : World) : Event → Option World
  | .settingsRead enabled threshold =>
    if w.settingsPending then
      some (onSettingsRead { w with settingsPending := false } enabled threshold)
    else some w
  | .modelLoaded =>
    if 0 < w.loadsInFlight then onModelLoaded fuel { w with loadsInFlight := w.loadsInFlight - 1 }
    else some w
  | .modelLoadFailed =>
    if 0 < w.loadsInFlight then some { w with loadsInFlight := w.loadsInFlight - 1 }
    else some w
  | .storageChanged area enabled threshold => onStorageChanged fuel w area enabled threshold
  | .pageChanged root => some { w with doc := { w.doc with root := root } }
  | .mutationBatch records => deliver fuel records w w.observing
  | .classified k predictions => some (onClassified w k predictions)
  | .classifyFailed k => some (onClassifyError w k)

/-- The events of a list handled one after the other. -/
def run (fuel : Nat) : World → List Event → Option World
  | w, [] => some w
  | w, e :: rest =>
    match step fuel w e with
    | some w2 => run fuel w2 rest
    | none => none

/-- The state when `content.js` has just been evaluated on a page. -/
def initialWorld (doc : Document) (innerText : DNode → JsString) (href now : JsString)
    (librariesPresent : Bool) : World :=
  { doc := doc
    innerText := innerText
    href := href
    now := now
    enabled := true
    toxicityThreshold := 0.8
    toxicityModel := false
    mutationObserver := none
    observing := []
    observersCreated := 0
    librariesPresent := librariesPresent
    settingsPending := true
    loadsInFlight := 0
    classifying := []
    logged := []
    calls := [] }

/-! ## The words of the specification -/

/-- The words of the lexical filter: `word` occurs in `text` as a substring when
the two are compared without regard to letter case. -/
def occursIgnoringCase (word text : JsString) : Prop :=
  ∃ before mid after, text = before ++ mid ++ after ∧ toLowerCase mid = toLowerCase word

/-- The upper-case form `String.prototype.toUpperCase` gives one character, for
the characters whose upper-case form contains a letter `A`-`Z`: the letters
`a`-`z`, the long s U+017F, the dotless i U+0131, the sharp s U+00DF, the
letters U+0149, U+01F0, U+1E96 to U+1E9A and the ligatures U+FB00 to U+FB06.
Every other character is left as it is. -/
def upperCaseOf (c : Char) : List Char :=
  let n := c.toNat
  if n = 0x17F then ['S']
  else if n = 0x131 then ['I']
  else if n = 0xDF then ['S', 'S']
  else if n = 0x149 then [Char.ofNat 0x2BC, 'N']
  else if n = 0x1F0 then ['J', Char.ofNat 0x30C]
  else if n = 0x1E96 then ['H', Char.ofNat 0x331]
  else if n = 0x1E97 then ['T', Char.ofNat 0x308]
  else if n = 0x1E98 then ['W', Char.ofNat 0x30A]
  else if n = 0x1E99 then ['Y', Char.ofNat 0x30A]
  else if n = 0x1E9A then ['A', Char.ofNat 0x2BE]
  else if n = 0xFB00 then ['F', 'F']
  else if n = 0xFB01 then ['F', 'I']
  else if n = 0xFB02 then ['F', 'L']
  else if n = 0xFB03 then ['F', 'F', 'I']
  else if n = 0xFB04 then ['F', 'F', 'L']
  else if n = 0xFB05 then ['S', 'T']
  else if n = 0xFB06 then ['S', 'T']
  else [c.toUpper]

/-- The words of the lexical filter: the text with the letter case of all its
characters changed to upper case, `text.toUpperCase()`. -/
def toUpperCase : JsString → JsString
  | [] => []
  | c :: cs => upperCaseOf c ++ toUpperCase cs

/-- The words of the lexical filter: two texts that differ only in the case of
letters `A`-`Z` and `a`-`z`. -/
def sameUpToAsciiCase (t1 t2 : JsString) : Prop :=
  t1.map Char.toLower = t2.map Char.toLower

/-- The words of the container resolver: climbing from the element `e` to its
parent is allowed when `e` is not the root `body`, the text of `e` is non-empty
and shorter than 500 characters, the parent exists and is not the root, and the
text of the parent is at most 1.5 times as long as that of `e`. -/
def climbAllowed (body : Nat) (e : DNode) (parent : Option DNode) : Prop :=
  e.id ≠ body ∧ e.textContent ≠ [] ∧ jsLength e.textContent < 500 ∧
    ∃ p, parent = some p ∧ p.id ≠ body ∧
      2 * jsLength p.textContent ≤ 3 * jsLength e.textContent

/-! ## Pages used as examples -/

mutual
/-- A rendering of a subtree in which every node is visible and laid out
inline: the text of the text nodes, with a line break for each `br` element. -/
def plainInnerText : DNode → JsString
  | .text _ v => v
  | .elem _ tag _ cs => if tag == "br" then "\n".toList else plainInnerTextList cs
/-- The rendering of a list of sibling nodes. -/
def plainInnerTextList : List DNode → JsString
  | [] => []
  | c :: cs => plainInnerText c ++ plainInnerTextList cs
end

/-- The state when `content.js` has just been evaluated on a page with the given
tree, whose `body` is element 1. -/
def freshWorld (root : DNode) : World :=
  initialWorld { root := root, body := 1 } plainInnerText
    "https://example.org/thread".toList "2024-01-01T00:00:00.000Z".toList true

/-- The page `<body><div><p>You are an idiot</p></div></body>`, with the
elements numbered 1, 2, 3 and the text node 4. -/
def insultPage : DNode :=
  .elem 0 "html" [] [.elem 1 "body" [] [.elem 2 "div" [] [.elem 3 "p" []
    [.text 4 "You are an idiot".toList]]]]

/-- The page `<body><div><p>hello<br>world</p></div></body>`, with `div` 2,
`p` 3 and the text nodes 4 and 6. -/
def twoLinePage : DNode :=
  .elem 0 "html" [] [.elem 1 "body" [] [.elem 2 "div" [] [.elem 3 "p" []
    [.text 4 "hello".toList, .elem 5 "br" [] [], .text 6 "world".toList]]]]

/-- A text node below `depth` nested elements that have no other child, all
below `body`: the elements are numbered `2` (the outermost) to `depth + 1` and
the text node `depth + 2`. -/
def nestedChain (value : JsString) : Nat → Nat → DNode
  | 0, i => .text i value
  | depth + 1, i => .elem i "div" [] [nestedChain value depth (i + 1)]

/-- The page with ten nested elements around the text `a comment`. -/
def chainPage : DNode :=
  .elem 0 "html" [] [.elem 1 "body" [] [nestedChain "a comment".toList 10 2]]

/-- The page `<body><section><article><p>short</p></article><p>a much longer
neighbour</p></section></body>`: the `section` 2 has more than 1.5 times the
text of the `article` 3. -/
def ratioPage : DNode :=
  .elem 0 "html" [] [.elem 1 "body" [] [.elem 2 "section" []
    [.elem 3 "article" [] [.elem 4 "p" [] [.text 5 "short".toList]],
     .elem 6 "p" [] [.text 7 "a much longer neighbour".toList]]]]

/-- The ancestors of the text node of `chainPage`, the innermost element first. -/
def chainOfChainPage : List DNode :=
  (chainPage.ancestors 12).getD []

/-- The page `<body><div><p>hello</p></div></body>`, with `div` 2, `p` 3 and
the text node 4. -/
def greetingPage : DNode :=
  .elem 0 "html" [] [.elem 1 "body" [] [.elem 2 "div" [] [.elem 3 "p" []
    [.text 4 "hello".toList]]]]

/-- The page `greetingPage` after the host page has appended `<p>nice day</p>`
to `body`: the new `p` is 5 and its text node 6. -/
def grownPage : DNode :=
  .elem 0 "html" [] [.elem 1 "body" [] [.elem 2 "div" [] [.elem 3 "p" []
    [.text 4 "hello".toList]], .elem 5 "p" [] [.text 6 "nice day".toList]]]

/-- The settings are read with the extension enabled; while the model loads the
user disables and enables the extension again; the model finishes loading; the
user disables the extension. -/
def toggleWhileLoading : List Event :=
  [.settingsRead (some true) none,
   .storageChanged "local" (some false) none,
   .storageChanged "local" (some true) none,
   .modelLoaded,
   .storageChanged "local" (some false) none]

/-- The host page appends the new paragraph and the record of it is delivered. -/
def paragraphAdded : List Event :=
  [.pageChanged grownPage,
   .mutationBatch [{ type := .childList, target := 1, addedNodes := [5] }]]

/-- The model loads on `greetingPage`, then the host page edits the text node 4
in place to `You are an idiot` and the record of the edit is delivered. -/
def textEdited : List Event :=
  [.settingsRead (some true) none,
   .modelLoaded,
   .pageChanged insultPage,
   .mutationBatch [{ type := .characterData, target := 4, addedNodes := [] }]]

/-- A state on `insultPage` with the model loaded and one observer subscribed. -/
def watchingWorld : World :=
  { freshWorld insultPage with
    toxicityModel := true
    settingsPending := false
    mutationObserver := some 0
    observing := [0]
    observersCreated := 1 }

/-- A result of `classify`: the category `insult` at 9/10 and the category
`toxicity` at 3/10. -/
def examplePredictions : List Prediction :=
  [{ label := "insult", prob := 9 / 10 }, { label := "toxicity", prob := 3 / 10 }]

/-- The text `ſcum`: the long s U+017F followed by `cum`. -/
def longSCum : JsString :=
  [Char.ofNat 0x17F, 'c', 'u', 'm']

/-- The text `Kill` written with the Kelvin sign U+212A for its first letter. -/
def kelvinKill : JsString :=
  [Char.ofNat 0x212A, 'i', 'l', 'l']

/-! ## Facts about strings -/

theorem isPrefixOf_iff_append (w s : JsString) :
    w.isPrefixOf s = true ↔ ∃ after, s = w ++ after := by
  induction w generalizing s with
  | nil => simp
  | cons a w ih =>
    cases s with
    | nil => simp [List.isPrefixOf]
    | cons b s =>
      simp only [List.isPrefixOf, Bool.and_eq_true, beq_iff_eq, ih, List.cons_append,
        List.cons.injEq]
      constructor
      · rintro ⟨rfl, after, rfl⟩
        exact ⟨after, rfl, rfl⟩
      · rintro ⟨after, rfl, rfl⟩
        exact ⟨rfl, after, rfl⟩

theorem includes_iff_append (s w : JsString) :
    includes s w = true ↔ ∃ before after, s = before ++ w ++ after := by
  induction s with
  | nil =>
    simp only [includes, List.isEmpty_iff]
    constructor
    · rintro rfl
      exact ⟨[], [], rfl⟩
    · rintro ⟨before, after, h⟩
      have h2 := congrArg List.length h
      simp only [List.length_nil, List.length_append] at h2
      exact List.length_eq_zero.mp (by omega)
  | cons c cs ih =>
    simp only [includes, Bool.or_eq_true, isPrefixOf_iff_append, ih]
    constructor
    · rintro (⟨after, h⟩ | ⟨before, after, h⟩)
      · exact ⟨[], after, by simpa using h⟩
      · exact ⟨c :: before, after, by simp [h]⟩
    · rintro ⟨before, after, h⟩
      cases before with
      | nil => exact Or.inl ⟨after, by simpa using h⟩
      | cons b before =>
        simp only [List.cons_append, List.cons.injEq] at h
        exact Or.inr ⟨before, after, h.2⟩

theorem trim_eq_nil_iff (text : JsString) :
    trim text = [] ↔ ∀ c ∈ text, isWhiteSpace c = true := by
  unfold trim
  rw [List.reverse_eq_nil_iff, List.dropWhile_eq_nil_iff]
  constructor
  · intro h
    have h2 : text.dropWhile isWhiteSpace = [] := by
      cases hd : text.dropWhile isWhiteSpace with
      | nil => rfl
      | cons a rest =>
        have ha : isWhiteSpace a = true := h a (by simp [hd])
        have hna := List.head_dropWhile_not isWhiteSpace text (by simp [hd])
        simp [hd, ha] at hna
    exact List.dropWhile_eq_nil_iff.mp h2
  · intro h c hc
    have h2 : text.dropWhile isWhiteSpace = [] := List.dropWhile_eq_nil_iff.mpr h
    simp [h2] at hc

theorem isBlank_iff (text : JsString) :
    isBlank text = true ↔ ∀ c ∈ text, isWhiteSpace c = true := by
  unfold isBlank
  rw [Bool.or_eq_true, List.isEmpty_iff, List.isEmpty_iff, trim_eq_nil_iff]
  constructor
  · rintro (rfl | h)
    · simp
    · exact h
  · intro h
    exact Or.inr h

theorem toLower_of_isWhiteSpace (c : Char) (h : isWhiteSpace c = true) : c.toLower = c := by
  unfold Char.toLower
  simp only [isWhiteSpace, Bool.or_eq_true, beq_iff_eq, Bool.and_eq_true, decide_eq_true_eq] at h
  have : ¬ (c.toNat ≥ 65 ∧ c.toNat ≤ 90) := by omega
  simp [this]

theorem lowerCaseOf_of_isWhiteSpace (c : Char) (h : isWhiteSpace c = true) :
    lowerCaseOf c = [c] := by
  have h2 := toLower_of_isWhiteSpace c h
  simp only [isWhiteSpace, Bool.or_eq_true, beq_iff_eq, Bool.and_eq_true, decide_eq_true_eq] at h
  have h3 : c.toNat ≠ 0x212A := by omega
  have h4 : c.toNat ≠ 0x130 := by omega
  simp [lowerCaseOf, h2, h3, h4]

theorem lowerCaseOf_cases (c : Char) :
    lowerCaseOf c = ['i', Char.ofNat 0x307] ∨ ∃ x, lowerCaseOf c = [x] := by
  unfold lowerCaseOf
  by_cases h1 : c.toNat = 0x212A
  · exact Or.inr ⟨'k', by simp [h1]⟩
  · by_cases h2 : c.toNat = 0x130
    · exact Or.inl (by simp [h2])
    · exact Or.inr ⟨c.toLower, by simp [h1, h2]⟩

theorem toLowerCase_append (a b : JsString) :
    toLowerCase (a ++ b) = toLowerCase a ++ toLowerCase b := by
  induction a with
  | nil => rfl
  | cons c cs ih => simp [toLowerCase, ih]

theorem toLowerCase_eq_nil (text : JsString) : toLowerCase text = [] ↔ text = [] := by
  cases text with
  | nil => simp [toLowerCase]
  | cons c cs =>
    rcases lowerCaseOf_cases c with h | ⟨x, h⟩ <;> simp [toLowerCase, h]

theorem keywords_lower : ∀ word ∈ HATE_KEYWORDS, toLowerCase word = word := by decide

theorem keywords_not_white :
    ∀ word ∈ HATE_KEYWORDS, word ≠ [] ∧ ∀ c ∈ word, isWhiteSpace c = false := by decide

theorem keywords_plain :
    ∀ word ∈ HATE_KEYWORDS, Char.ofNat 0x307 ∉ word ∧ word.getLast? ≠ some 'i' := by decide

/-- A piece of a lower-cased text that has no combining dot and does not end in
`i` is the lower-case form of a piece of the text. -/
theorem toLowerCase_split_front (word : JsString) : ∀ (text after : JsString),
    Char.ofNat 0x307 ∉ word → word.getLast? ≠ some 'i' →
    toLowerCase text = word ++ after →
    ∃ mid rest, text = mid ++ rest ∧ toLowerCase mid = word := by
  induction word with
  | nil =>
    intro text after _ _ _
    exact ⟨[], text, rfl, rfl⟩
  | cons x word ih =>
    intro text after hdot hlast h
    cases text with
    | nil => simp [toLowerCase] at h
    | cons c cs =>
      have hdot2 : Char.ofNat 0x307 ∉ word := fun hm => hdot (List.mem_cons_of_mem _ hm)
      have hlast2 : word.getLast? ≠ some 'i' := by
        cases word with
        | nil => simp
        | cons y ys => simpa [List.getLast?_cons_cons] using hlast
      simp only [toLowerCase] at h
      rcases lowerCaseOf_cases c with hc | ⟨y, hc⟩
      · rw [hc] at h
        simp only [List.cons_append, List.nil_append, List.cons.injEq] at h
        obtain ⟨hx, h2⟩ := h
        cases word with
        | nil =>
          exfalso
          apply hlast
          simp [← hx]
        | cons z zs =>
          exfalso
          simp only [List.cons_append, List.cons.injEq] at h2
          apply hdot
          simp [← h2.1]
      · rw [hc] at h
        simp only [List.cons_append, List.nil_append, List.cons.injEq] at h
        obtain ⟨hx, h2⟩ := h
        obtain ⟨mid, rest, hcs, hmid⟩ := ih cs after hdot2 hlast2 h2
        exact ⟨c :: mid, rest, by simp [hcs], by simp [toLowerCase, hc, hx, hmid]⟩

theorem toLowerCase_split (word : JsString) (hdot : Char.ofNat 0x307 ∉ word)
    (hlast : word.getLast? ≠ some 'i') : ∀ (text before after : JsString),
    toLowerCase text = before ++ word ++ after →
    ∃ front mid rest, text = front ++ mid ++ rest ∧ toLowerCase mid = word := by
  intro text
  induction text with
  | nil =>
    intro before after h
    simp only [toLowerCase] at h
    have hw : word = [] := by
      have := congrArg List.length h
      simp only [List.length_nil, List.length_append] at this
      exact List.length_eq_zero.mp (by omega)
    exact ⟨[], [], [], rfl, by simp [hw, toLowerCase]⟩
  | cons c cs ih =>
    intro before after h
    cases hword : word with
    | nil => exact ⟨[], [], c :: cs, rfl, by simp [toLowerCase]⟩
    | cons w0 ws =>
      cases before with
      | nil =>
        obtain ⟨mid, rest, h1, h2⟩ := toLowerCase_split_front word (c :: cs) after hdot hlast
          (by simpa using h)
        exact ⟨[], mid, rest, by simpa using h1, by rw [h2, hword]⟩
      | cons b bs =>
        simp only [toLowerCase] at h
        rcases lowerCaseOf_cases c with hc | ⟨y, hc⟩
        · rw [hc] at h
          simp only [List.cons_append, List.nil_append, List.cons.injEq] at h
          obtain ⟨_, h2⟩ := h
          cases bs with
          | nil =>
            exfalso
            rw [hword] at h2
            simp only [List.nil_append, List.cons_append, List.cons.injEq] at h2
            apply hdot
            rw [hword]
            simp [← h2.1]
          | cons b2 bs2 =>
            simp only [List.cons_append, List.cons.injEq] at h2
            obtain ⟨front, mid, rest, h3, h4⟩ := ih bs2 after h2.2
            exact ⟨c :: front, mid, rest, by simp [h3], by rw [h4, hword]⟩
        · rw [hc] at h
          simp only [List.cons_append, List.nil_append, List.cons.injEq] at h
          obtain ⟨front, mid, rest, h3, h4⟩ := ih bs after h.2
          exact ⟨c :: front, mid, rest, by simp [h3], by rw [h4, hword]⟩

theorem containsHateKeyword_iff (text : JsString) :
    containsHateKeyword text = true ↔ ∃ word ∈ HATE_KEYWORDS, occursIgnoringCase word text := by
  unfold containsHateKeyword occursIgnoringCase
  constructor
  · intro h
    split at h
    · simp at h
    · simp only [List.any_eq_true, includes_iff_append] at h
      obtain ⟨word, hw, before, after, h⟩ := h
      obtain ⟨hdot, hlast⟩ := keywords_plain word hw
      obtain ⟨front, mid, rest, h1, h2⟩ := toLowerCase_split word hdot hlast text before after h
      exact ⟨word, hw, front, mid, rest, h1, by rw [keywords_lower word hw]; exact h2⟩
  · rintro ⟨word, hw, before, mid, after, rfl, h⟩
    rw [keywords_lower word hw] at h
    have hne : mid ≠ [] := by
      rintro rfl
      exact (keywords_not_white word hw).1 (by simpa [toLowerCase] using h.symm)
    have hempty : (before ++ mid ++ after).isEmpty = false := by
      cases mid with
      | nil => exact absurd rfl hne
      | cons a m => cases before <;> rfl
    simp only [hempty, Bool.false_eq_true, if_false, List.any_eq_true, includes_iff_append]
    refine ⟨word, hw, toLowerCase before, toLowerCase after, ?_⟩
    rw [toLowerCase_append, toLowerCase_append, h]

theorem containsHateKeyword_of_blank (text : JsString) (h : isBlank text = true) :
    containsHateKeyword text = false := by
  rw [isBlank_iff] at h
  cases hc : containsHateKeyword text with
  | false => rfl
  | true =>
    exfalso
    obtain ⟨word, hw, before, mid, after, rfl, hm⟩ := (containsHateKeyword_iff text).mp hc
    rw [keywords_lower word hw] at hm
    obtain ⟨hne, hnw⟩ := keywords_not_white word hw
    cases mid with
    | nil => exact hne (by simpa [toLowerCase] using hm.symm)
    | cons a m =>
      have ha : isWhiteSpace a = true := h a (by simp)
      have h1 : a ∈ word := by
        rw [← hm]
        simp [toLowerCase, lowerCaseOf_of_isWhiteSpace a ha]
      have := hnw a h1
      simp [ha] at this

theorem containsHateKeyword_congr (t1 t2 : JsString) (h : toLowerCase t1 = toLowerCase t2) :
    containsHateKeyword t1 = containsHateKeyword t2 := by
  have hlen : t1.isEmpty = t2.isEmpty := by
    have h1 := toLowerCase_eq_nil t1
    have h2 := toLowerCase_eq_nil t2
    rw [h] at h1
    cases t1 <;> cases t2 <;> simp_all
  unfold containsHateKeyword
  rw [hlen, h]

theorem toNat_ofNat_small (n : Nat) (h : n < 0xd800) : (Char.ofNat n).toNat = n := by
  have hv : n.isValidChar := Or.inl h
  simp only [Char.ofNat, hv, dite_true, Char.toNat, Char.ofNatAux]
  rfl

theorem toLower_toUpper (c : Char) : c.toUpper.toLower = c.toLower := by
  unfold Char.toUpper
  by_cases h : c.toNat ≥ 97 ∧ c.toNat ≤ 122
  · simp only [h, and_self, if_true]
    unfold Char.toLower
    rw [toNat_ofNat_small _ (by omega)]
    have h1 : c.toNat - 32 ≥ 65 ∧ c.toNat - 32 ≤ 90 := by omega
    have h2 : ¬ (c.toNat ≥ 65 ∧ c.toNat ≤ 90) := by omega
    have h3 : c.toNat - 32 + 32 = c.toNat := by omega
    simp only [h1, h2, and_self, if_true, if_false, h3, Char.ofNat_toNat]
  · simp only [h, if_false]

theorem toLower_of_not_upper (c : Char) (h : ¬ (c.toNat ≥ 65 ∧ c.toNat ≤ 90)) :
    c.toLower = c := by
  simp [Char.toLower, h]

theorem lowerCaseOf_toLower (c : Char) : lowerCaseOf c.toLower = lowerCaseOf c := by
  by_cases h : c.toNat ≥ 65 ∧ c.toNat ≤ 90
  · have hl : c.toLower = Char.ofNat (c.toNat + 32) := by simp [Char.toLower, h]
    have hn : c.toLower.toNat = c.toNat + 32 := by
      rw [hl, toNat_ofNat_small _ (by omega)]
    have hll : c.toLower.toLower = c.toLower :=
      toLower_of_not_upper c.toLower (by omega)
    have h1 : c.toLower.toNat ≠ 0x212A := by omega
    have h2 : c.toLower.toNat ≠ 0x130 := by omega
    have h3 : c.toNat ≠ 0x212A := by omega
    have h4 : c.toNat ≠ 0x130 := by omega
    simp [lowerCaseOf, h1, h2, h3, h4, hll]
  · have hl : c.toLower = c := by simp [Char.toLower, h]
    rw [hl]

theorem toLowerCase_map_toLower (text : JsString) :
    toLowerCase (text.map Char.toLower) = toLowerCase text := by
  induction text with
  | nil => rfl
  | cons c cs ih => simp [toLowerCase, ih, lowerCaseOf_toLower]

theorem containsHateKeyword_asciiCase (t1 t2 : JsString) (h : sameUpToAsciiCase t1 t2) :
    containsHateKeyword t1 = containsHateKeyword t2 := by
  apply containsHateKeyword_congr
  rw [← toLowerCase_map_toLower t1, ← toLowerCase_map_toLower t2, h]

/-! ## The lexical filter -/

/-- C10, as amended: `containsHateKeyword` is a total function on strings that
returns true exactly when some keyword of `HATE_KEYWORDS` occurs as a substring
of the text after both are put in lower case by `toLowerCase`; it returns false
for every empty or whitespace-only text; and its result does not change when
the case of letters `A`-`Z` and `a`-`z` in the input is changed, as in the form
of the text with its letters `a`-`z` in upper case. -/
theorem containsHateKeyword_spec :
    (∀ text : JsString, containsHateKeyword text = true ↔
      ∃ word ∈ HATE_KEYWORDS, occursIgnoringCase word text) ∧
    (∀ text : JsString, (∀ c ∈ text, isWhiteSpace c = true) →
      containsHateKeyword text = false) ∧
    (∀ t1 t2 : JsString, sameUpToAsciiCase t1 t2 →
      containsHateKeyword t1 = containsHateKeyword t2) ∧
    (∀ text : JsString, containsHateKeyword (text.map Char.toUpper) = containsHateKeyword text) := by
  refine ⟨containsHateKeyword_iff, ?_, containsHateKeyword_asciiCase, ?_⟩
  · intro text h
    exact containsHateKeyword_of_blank text ((isBlank_iff text).mpr h)
  · intro text
    apply containsHateKeyword_asciiCase
    simp [sameUpToAsciiCase, toLower_toUpper]

/-- C10 as stated fails: the result changes with the letter case of the input.
The text `ſcum` (long s, U+017F, then `cum`) is not matched, because
`toLowerCase` leaves the long s as it is, while its upper-case form `SCUM` is
matched. -/
theorem containsHateKeyword_case_counterexample :
    toUpperCase longSCum = "SCUM".toList ∧
    containsHateKeyword longSCum = false ∧
    containsHateKeyword (toUpperCase longSCum) = true := by
  decide

/-- The Kelvin sign U+212A has the lower-case form `k`: `Kill` written with it
is matched, and stays matched when its letters `A`-`Z` are put in lower case. -/
theorem containsHateKeyword_kelvin :
    containsHateKeyword kelvinKill = true ∧
    containsHateKeyword (kelvinKill.map Char.toLower) = true := by
  decide

/-! ## The classification step -/

theorem blockContentElement_classifying (w : World) (element : Option Nat) (text : JsString) :
    (blockContentElement w element text).classifying = w.classifying := by
  cases element with
  | none => rfl
  | some el => rfl

/-- C1: for every text that contains one of the keywords as a substring in any
letter case, `analyzeText` calls `blockContentElement` on the target with that
text and leaves no call of `classify` behind, whether or not a classifier
instance is loaded. -/
theorem analyzeText_keyword_blocks (w : World) (nodeOrText : NodeOrText)
    (containerElement : Option Nat)
    (h : ∃ word ∈ HATE_KEYWORDS, occursIgnoringCase word (nodeOrText.text w.innerText)) :
    analyzeText w nodeOrText containerElement =
      blockContentElement
        { w with calls := w.calls ++ [.analyzeText nodeOrText containerElement] }
        (containerElement <|> nodeOrText.asElement) (nodeOrText.text w.innerText) ∧
    (analyzeText w nodeOrText containerElement).classifying = w.classifying := by
  have hk : containsHateKeyword (nodeOrText.text w.innerText) = true :=
    (containsHateKeyword_iff _).mpr h
  have hb : isBlank (nodeOrText.text w.innerText) = false := by
    cases hbl : isBlank (nodeOrText.text w.innerText) with
    | false => rfl
    | true => rw [containsHateKeyword_of_blank _ hbl] at hk; cases hk
  have heq : analyzeText w nodeOrText containerElement =
      blockContentElement
        { w with calls := w.calls ++ [.analyzeText nodeOrText containerElement] }
        (containerElement <|> nodeOrText.asElement) (nodeOrText.text w.innerText) := by
    simp [analyzeText, hk, hb]
  exact ⟨heq, by rw [heq, blockContentElement_classifying]⟩

/-- C8: for every text that is empty or consists only of white space,
`analyzeText` returns at once: the document, the pending `classify` calls and
the audit entries are what they were, whatever the container argument and the
classifier state. -/
theorem analyzeText_blank_noop (w : World) (nodeOrText : NodeOrText)
    (containerElement : Option Nat)
    (h : ∀ c ∈ nodeOrText.text w.innerText, isWhiteSpace c = true) :
    analyzeText w nodeOrText containerElement =
      { w with calls := w.calls ++ [.analyzeText nodeOrText containerElement] } ∧
    (analyzeText w nodeOrText containerElement).doc = w.doc ∧
    (analyzeText w nodeOrText containerElement).classifying = w.classifying ∧
    (analyzeText w nodeOrText containerElement).logged = w.logged := by
  have hb : isBlank (nodeOrText.text w.innerText) = true := (isBlank_iff _).mpr h
  have heq : analyzeText w nodeOrText containerElement =
      { w with calls := w.calls ++ [.analyzeText nodeOrText containerElement] } := by
    simp [analyzeText, hb]
  exact ⟨heq, by rw [heq], by rw [heq], by rw [heq]⟩

theorem judge_fold (t : ℚ) (predictions : List Prediction) (b : Bool) (m : ℚ) :
    (predictions.foldl
      (fun acc pred =>
        ((if pred.prob ≥ t then true else acc.1), (if pred.prob > acc.2 then pred.prob else acc.2)))
      (b, m)).1 = true ↔ b = true ∨ ∃ pred ∈ predictions, t ≤ pred.prob := by
  induction predictions generalizing b m with
  | nil => simp
  | cons p ps ih =>
    rw [List.foldl_cons, ih]
    by_cases hp : t ≤ p.prob
    · simp [hp]
    · simp [hp]

theorem judge_iff (t : ℚ) (predictions : List Prediction) :
    (judge t predictions).1 = true ↔ ∃ pred ∈ predictions, t ≤ pred.prob := by
  have := judge_fold t predictions false 0
  simpa [judge] using this

theorem le_maximum_iff (t : ℚ) (l : List ℚ) :
    (t : WithBot ℚ) ≤ l.maximum ↔ ∃ x ∈ l, t ≤ x := by
  induction l with
  | nil => simp
  | cons a l ih =>
    rw [List.maximum_cons, le_max_iff, ih, WithBot.coe_le_coe]
    simp

/-- The keyword branch on the page of the example: the text `You are an idiot`
with container `p`. -/
theorem analyzeText_keyword_blocks_witness :
    (∃ word ∈ HATE_KEYWORDS, occursIgnoringCase word
      ((NodeOrText.string "You are an idiot".toList).text (freshWorld insultPage).innerText)) ∧
    (analyzeText (freshWorld insultPage) (.string "You are an idiot".toList) (some 3) =
      blockContentElement
        { freshWorld insultPage with
          calls := (freshWorld insultPage).calls ++
            [.analyzeText (.string "You are an idiot".toList) (some 3)] }
        (some 3 <|> (NodeOrText.string "You are an idiot".toList).asElement)
        ((NodeOrText.string "You are an idiot".toList).text (freshWorld insultPage).innerText) ∧
      (analyzeText (freshWorld insultPage) (.string "You are an idiot".toList) (some 3)).classifying =
        (freshWorld insultPage).classifying) :=
  have h : ∃ word ∈ HATE_KEYWORDS, occursIgnoringCase word
      ((NodeOrText.string "You are an idiot".toList).text (freshWorld insultPage).innerText) :=
    ⟨"idiot".toList, by decide, "You are an ".toList, "idiot".toList, [], by decide, by decide⟩
  ⟨h, analyzeText_keyword_blocks (freshWorld insultPage) (.string "You are an idiot".toList)
    (some 3) h⟩

/-- The blank branch at the text of three spaces. -/
theorem analyzeText_blank_noop_witness :
    (∀ c ∈ (NodeOrText.string "   ".toList).text (freshWorld insultPage).innerText,
      isWhiteSpace c = true) ∧
    (analyzeText (freshWorld insultPage) (.string "   ".toList) (some 3) =
      { freshWorld insultPage with
        calls := (freshWorld insultPage).calls ++
          [.analyzeText (.string "   ".toList) (some 3)] } ∧
    (analyzeText (freshWorld insultPage) (.string "   ".toList) (some 3)).doc =
      (freshWorld insultPage).doc ∧
    (analyzeText (freshWorld insultPage) (.string "   ".toList) (some 3)).classifying =
      (freshWorld insultPage).classifying ∧
    (analyzeText (freshWorld insultPage) (.string "   ".toList) (some 3)).logged =
      (freshWorld insultPage).logged) :=
  have h : ∀ c ∈ (NodeOrText.string "   ".toList).text (freshWorld insultPage).innerText,
      isWhiteSpace c = true := by decide
  ⟨h, analyzeText_blank_noop (freshWorld insultPage) (.string "   ".toList) (some 3) h⟩

/-- C2: for every non-blank text that matches no keyword, when a classifier
instance is available, `analyzeText` leaves one pending `classify` call for the
text; when that call resolves to a list of predictions, the callback calls
`blockContentElement` on the target if and only if some category's probability
is at least the threshold held at that moment, which is the same as the
maximum over the categories being at least that threshold. -/
theorem analyzeText_classifier_verdict (w : World) (nodeOrText : NodeOrText)
    (containerElement : Option Nat)
    (hblank : isBlank (nodeOrText.text w.innerText) = false)
    (hkeyword : containsHateKeyword (nodeOrText.text w.innerText) = false)
    (hmodel : w.toxicityModel = true) :
    analyzeText w nodeOrText containerElement =
      { w with
        calls := w.calls ++ [.analyzeText nodeOrText containerElement]
        classifying := w.classifying ++
          [{ text := nodeOrText.text w.innerText
             targetElem := containerElement <|> nodeOrText.asElement }] } ∧
    ∀ (later : World) (k : Nat) (predictions : List Prediction),
      later.classifying[k]? =
        some { text := nodeOrText.text w.innerText
               targetElem := containerElement <|> nodeOrText.asElement } →
      ((∃ pred ∈ predictions, later.toxicityThreshold ≤ pred.prob) ↔
        (later.toxicityThreshold : WithBot ℚ) ≤ (predictions.map Prediction.prob).maximum) ∧
      ((∃ pred ∈ predictions, later.toxicityThreshold ≤ pred.prob) →
        onClassified later k predictions =
          blockContentElement { later with classifying := later.classifying.eraseIdx k }
            (containerElement <|> nodeOrText.asElement) (nodeOrText.text w.innerText)) ∧
      ((¬ ∃ pred ∈ predictions, later.toxicityThreshold ≤ pred.prob) →
        onClassified later k predictions =
          { later with classifying := later.classifying.eraseIdx k }) := by
  refine ⟨by simp [analyzeText, hblank, hkeyword, hmodel], ?_⟩
  intro later k predictions hk
  refine ⟨?_, ?_, ?_⟩
  · rw [le_maximum_iff]
    simp
  · intro h
    have hj := (judge_iff later.toxicityThreshold predictions).mpr h
    simp [onClassified, hk, hj]
  · intro h
    have hj : (judge later.toxicityThreshold predictions).1 = false := by
      cases hc : (judge later.toxicityThreshold predictions).1 with
      | false => rfl
      | true => exact absurd ((judge_iff _ _).mp hc) h
    simp [onClassified, hk, hj]

/-- C6: for every list of category probabilities and thresholds `t1 ≤ t2`, a
text the classifier branch judges toxic at threshold `t2` is judged toxic at
threshold `t1` as well. -/
theorem judge_threshold_antitone (predictions : List Prediction) (t1 t2 : ℚ) (h : t1 ≤ t2)
    (htoxic : (judge t2 predictions).1 = true) : (judge t1 predictions).1 = true := by
  rw [judge_iff] at htoxic ⊢
  obtain ⟨pred, hmem, hle⟩ := htoxic
  exact ⟨pred, hmem, le_trans h hle⟩

/-- The classifier branch at the text `hello world` in `watchingWorld`: the call
is left pending for the container `p`, and when it resolves to
`examplePredictions` under the threshold 0.8 the callback blocks the `p`. -/
theorem analyzeText_classifier_verdict_witness :
    (isBlank ((NodeOrText.string "hello world".toList).text watchingWorld.innerText) = false ∧
      containsHateKeyword
        ((NodeOrText.string "hello world".toList).text watchingWorld.innerText) = false ∧
      watchingWorld.toxicityModel = true ∧
      (analyzeText watchingWorld (.string "hello world".toList) (some 3)).classifying[0]? =
        some { text := (NodeOrText.string "hello world".toList).text watchingWorld.innerText
               targetElem := some 3 <|> (NodeOrText.string "hello world".toList).asElement } ∧
      ∃ pred ∈ examplePredictions,
        (analyzeText watchingWorld (.string "hello world".toList) (some 3)).toxicityThreshold ≤
          pred.prob) ∧
    onClassified (analyzeText watchingWorld (.string "hello world".toList) (some 3)) 0
        examplePredictions =
      blockContentElement
        { analyzeText watchingWorld (.string "hello world".toList) (some 3) with
          classifying :=
            (analyzeText watchingWorld (.string "hello world".toList) (some 3)).classifying.eraseIdx
              0 }
        (some 3 <|> (NodeOrText.string "hello world".toList).asElement)
        ((NodeOrText.string "hello world".toList).text watchingWorld.innerText) := by
  have hblank : isBlank
      ((NodeOrText.string "hello world".toList).text watchingWorld.innerText) = false := by
    decide
  have hkeyword : containsHateKeyword
      ((NodeOrText.string "hello world".toList).text watchingWorld.innerText) = false := by
    decide
  have hspec := analyzeText_classifier_verdict watchingWorld (.string "hello world".toList)
    (some 3) hblank hkeyword rfl
  have hpending :
      (analyzeText watchingWorld (.string "hello world".toList) (some 3)).classifying[0]? =
        some { text := (NodeOrText.string "hello world".toList).text watchingWorld.innerText
               targetElem := some 3 <|> (NodeOrText.string "hello world".toList).asElement } := by
    rw [hspec.1]
    rfl
  have hprob : ∃ pred ∈ examplePredictions,
      (analyzeText watchingWorld (.string "hello world".toList) (some 3)).toxicityThreshold ≤
        pred.prob := by
    refine ⟨{ label := "insult", prob := 9 / 10 }, by simp [examplePredictions], ?_⟩
    rw [hspec.1]
    show (0.8 : ℚ) ≤ 9 / 10
    norm_num
  exact ⟨⟨hblank, hkeyword, rfl, hpending, hprob⟩, (hspec.2 _ 0 examplePredictions hpending).2.1 hprob⟩

/-- The thresholds 1/2 and 4/5 on the probabilities 9/10 and 3/10. -/
theorem judge_threshold_antitone_witness :
    ((1 / 2 : ℚ) ≤ 4 / 5 ∧
      (judge (4 / 5) [{ label := "insult", prob := 9 / 10 },
        { label := "toxicity", prob := 3 / 10 }]).1 = true) ∧
    (judge (1 / 2) [{ label := "insult", prob := 9 / 10 },
      { label := "toxicity", prob := 3 / 10 }]).1 = true :=
  have h1 : (1 / 2 : ℚ) ≤ 4 / 5 := by norm_num
  have h2 : (judge (4 / 5) [{ label := "insult", prob := 9 / 10 },
      { label := "toxicity", prob := 3 / 10 }]).1 = true :=
    (judge_iff _ _).mpr ⟨{ label := "insult", prob := 9 / 10 }, by simp, by norm_num⟩
  ⟨⟨h1, h2⟩, judge_threshold_antitone _ _ _ h1 h2⟩

/-! ## The container resolver -/

theorem exceedsRatio_iff (parentLength elLength : Nat) :
    exceedsRatio parentLength elLength = true ↔
      (parentLength : ℚ) > (elLength : ℚ) * 1.5 := by
  unfold exceedsRatio
  rw [decide_eq_true_iff]
  constructor
  · intro h
    have h2 : (3 * elLength : ℚ) < 2 * parentLength := by exact_mod_cast h
    norm_num
    linarith
  · intro h
    have h2 : (3 * elLength : ℚ) < 2 * parentLength := by
      norm_num at h
      linarith
    exact_mod_cast h2

theorem climb_spec (body : Nat) (above : List DNode) : ∀ el : DNode,
    ∃ i e, (el :: above)[i]? = some e ∧ climb body el above = e ∧
      ¬ climbAllowed body e (el :: above)[i + 1]? ∧
      ∀ j, j < i → ∀ ej, (el :: above)[j]? = some ej →
        climbAllowed body ej (el :: above)[j + 1]? := by
  induction above with
  | nil =>
    intro el
    refine ⟨0, el, rfl, rfl, ?_, ?_⟩
    · rintro ⟨_, _, _, p, hp, _⟩
      simp at hp
    · intro j hj
      omega
  | cons parent rest ih =>
    intro el
    unfold climb
    by_cases h1 : el.id ≠ body ∧ ¬ el.textContent.isEmpty ∧ jsLength el.textContent < 500
    · rw [if_pos h1]
      by_cases h2 : parent.id = body
      · rw [if_pos h2]
        refine ⟨0, el, rfl, rfl, ?_, ?_⟩
        · rintro ⟨_, _, _, p, hp, hne, _⟩
          simp only [zero_add, List.getElem?_cons_succ, List.getElem?_cons_zero,
            Option.some.injEq] at hp
          exact hne (hp ▸ h2)
        · intro j hj
          omega
      · rw [if_neg h2]
        by_cases h3 : ¬ parent.textContent.isEmpty ∧
            exceedsRatio (jsLength parent.textContent) (jsLength el.textContent)
        · rw [if_pos h3]
          refine ⟨0, el, rfl, rfl, ?_, ?_⟩
          · rintro ⟨_, _, _, p, hp, _, hle⟩
            simp only [zero_add, List.getElem?_cons_succ, List.getElem?_cons_zero,
              Option.some.injEq] at hp
            subst hp
            have := h3.2
            simp only [exceedsRatio, decide_eq_true_eq] at this
            omega
          · intro j hj
            omega
        · rw [if_neg h3]
          obtain ⟨i, e, hi, hc, hnot, hall⟩ := ih parent
          refine ⟨i + 1, e, by simpa using hi, hc, by simpa using hnot, ?_⟩
          intro j hj ej hej
          cases j with
          | zero =>
            simp only [List.getElem?_cons_zero, Option.some.injEq] at hej
            subst hej
            refine ⟨h1.1, ?_, h1.2.2, parent, by simp, h2, ?_⟩
            · intro hemp
              exact h1.2.1 (by simp [hemp])
            · by_contra hgt
              apply h3
              have hgt2 : 2 * jsLength parent.textContent > 3 * jsLength el.textContent := by
                omega
              refine ⟨?_, by simp [exceedsRatio, hgt2]⟩
              intro hemp
              have : parent.textContent = [] := List.isEmpty_iff.mp hemp
              rw [this] at hgt2
              simp [jsLength] at hgt2
          | succ j =>
            have := hall j (by omega) ej (by simpa using hej)
            simpa using this
    · rw [if_neg h1]
      refine ⟨0, el, rfl, rfl, ?_, ?_⟩
      · rintro ⟨ha, hb, hc, _⟩
        apply h1
        refine ⟨ha, ?_, hc⟩
        intro hemp
        exact hb (List.isEmpty_iff.mp hemp)
      · intro j hj
        omega

theorem getContainerElementForNode_least (d : Document) (textNode : Nat) (chain : List DNode)
    (hchain : d.root.ancestors textNode = some chain) (hne : chain ≠ []) :
    ∃ i e, chain[i]? = some e ∧ getContainerElementForNode d textNode = some e ∧
      ¬ climbAllowed d.body e chain[i + 1]? ∧
      ∀ j, j < i → ∀ ej, chain[j]? = some ej → climbAllowed d.body ej chain[j + 1]? := by
  cases chain with
  | nil => exact absurd rfl hne
  | cons el above =>
    obtain ⟨i, e, hi, hc, hnot, hall⟩ := climb_spec d.body above el
    refine ⟨i, e, hi, ?_, hnot, hall⟩
    simp [getContainerElementForNode, hchain, hc]

theorem getContainerElementForNode_stop (d : Document) (textNode : Nat) (chain : List DNode)
    (hchain : d.root.ancestors textNode = some chain) (k : Nat) (e : DNode)
    (hk : chain[k]? = some e) (hstop : ¬ climbAllowed d.body e chain[k + 1]?)
    (hbelow : ∀ j, j < k → ∀ ej, chain[j]? = some ej → climbAllowed d.body ej chain[j + 1]?) :
    getContainerElementForNode d textNode = some e := by
  have hne : chain ≠ [] := by
    rintro rfl
    simp at hk
  obtain ⟨i, e2, hi, hres, hnot, hall⟩ :=
    getContainerElementForNode_least d textNode chain hchain hne
  have hik : i = k := by
    rcases Nat.lt_trichotomy i k with h | h | h
    · exact absurd (hbelow i h e2 hi) hnot
    · exact h
    · exact absurd (hall k h e hk) hstop
  subst hik
  rw [hi] at hk
  rw [hres, hk]

/-- C5: `getContainerElementForNode` returns null exactly when the text node has
no parent element; otherwise it returns the lowest element `e` on the chain
parent, grandparent, ... from which climbing is not allowed, where climbing is
allowed when `e` is not the root, its text is non-empty and shorter than 500
characters, its parent exists and is not the root, and the parent's text is at
most 1.5 times as long. Hence on a chain of elements below the root that all
have non-empty text of fewer than 500 characters and parent to child ratios of at
most 1.5 it returns the outermost element below the root, and where the chain
can be climbed up to a child whose parent has more than 1.5 times its text it
returns that child. -/
theorem getContainerElementForNode_spec (d : Document) (textNode : Nat) :
    (getContainerElementForNode d textNode = none ↔ d.parentElement textNode = none) ∧
    (∀ chain, d.root.ancestors textNode = some chain → chain ≠ [] →
      ∃ i e, chain[i]? = some e ∧ getContainerElementForNode d textNode = some e ∧
        ¬ climbAllowed d.body e chain[i + 1]? ∧
        ∀ j, j < i → ∀ ej, chain[j]? = some ej → climbAllowed d.body ej chain[j + 1]?) ∧
    (∀ chain k top root, d.root.ancestors textNode = some chain →
      chain[k]? = some top → chain[k + 1]? = some root → root.id = d.body →
      (∀ j, j ≤ k → ∀ e, chain[j]? = some e →
        e.id ≠ d.body ∧ e.textContent ≠ [] ∧ jsLength e.textContent < 500) →
      (∀ j, j < k → ∀ e p, chain[j]? = some e → chain[j + 1]? = some p →
        2 * jsLength p.textContent ≤ 3 * jsLength e.textContent) →
      getContainerElementForNode d textNode = some top) ∧
    (∀ chain k child parent, d.root.ancestors textNode = some chain →
      chain[k]? = some child → chain[k + 1]? = some parent →
      (∀ j, j < k → ∀ e, chain[j]? = some e → climbAllowed d.body e chain[j + 1]?) →
      2 * jsLength parent.textContent > 3 * jsLength child.textContent →
      getContainerElementForNode d textNode = some child) := by
  refine ⟨?_, getContainerElementForNode_least d textNode, ?_, ?_⟩
  · unfold getContainerElementForNode Document.parentElement
    cases h : d.root.ancestors textNode with
    | none => simp
    | some chain =>
      cases chain with
      | nil => simp
      | cons el above => simp
  · intro chain k top root hchain hk hroot hbody hall hratio
    apply getContainerElementForNode_stop d textNode chain hchain k top hk
    · rintro ⟨_, _, _, p, hp, hne, _⟩
      rw [hroot] at hp
      cases hp
      exact hne hbody
    · intro j hj ej hej
      obtain ⟨h1, h2, h3⟩ := hall j (by omega) ej hej
      have hlen : j + 1 < chain.length := by
        have := (List.getElem?_eq_some_iff.mp hk).1
        omega
      refine ⟨h1, h2, h3, chain[j + 1], by simp, ?_, ?_⟩
      · exact (hall (j + 1) (by omega) chain[j + 1] (by simp)).1
      · exact hratio j hj ej chain[j + 1] hej (by simp)
  · intro chain k child parent hchain hk hparent hbelow hgt
    apply getContainerElementForNode_stop d textNode chain hchain k child hk _ hbelow
    rintro ⟨_, _, _, p, hp, _, hle⟩
    rw [hparent] at hp
    cases hp
    omega

theorem chainOfChainPage_eq : chainPage.ancestors 12 = some chainOfChainPage := by
  rfl

theorem chainOfChainPage_elements :
    ∀ e ∈ chainOfChainPage.take 10,
      e.id ≠ 1 ∧ e.textContent ≠ [] ∧ jsLength e.textContent < 500 := by
  decide!

theorem chainOfChainPage_ratios :
    ∀ j ∈ List.range 9,
      (match chainOfChainPage[j]?, chainOfChainPage[j + 1]? with
        | some e, some p => decide (2 * jsLength p.textContent ≤ 3 * jsLength e.textContent)
        | _, _ => true) = true := by
  decide!

theorem chainOfChainPage_top :
    (chainOfChainPage[9]?.map DNode.id = some 2 ∧
      chainOfChainPage[10]?.map DNode.id = some 1) := by
  decide!

/-- The chain of ten nested elements: the resolver returns the outermost
element, number 2, the child of `body`. -/
theorem getContainerElementForNode_spec_witness :
    (getContainerElementForNode { root := chainPage, body := 1 } 12).map DNode.id = some 2 := by
  obtain ⟨h9, h10⟩ := chainOfChainPage_top
  cases htop : chainOfChainPage[9]? with
  | none => rw [htop] at h9; cases h9
  | some top =>
    cases hroot : chainOfChainPage[10]? with
    | none => rw [hroot] at h10; cases h10
    | some root =>
      rw [htop] at h9
      rw [hroot] at h10
      have hres := (getContainerElementForNode_spec { root := chainPage, body := 1 } 12).2.2.1
        chainOfChainPage 9 top root chainOfChainPage_eq htop hroot
        (by simpa using h10)
        (by
          intro j hj e he
          apply chainOfChainPage_elements e
          rw [List.mem_iff_getElem?]
          exact ⟨j, by rw [List.getElem?_take]; simp [show j < 10 by omega, he]⟩)
        (by
          intro j hj e p he hp
          have := chainOfChainPage_ratios j (List.mem_range.mpr hj)
          rw [he, hp] at this
          simpa using this)
      rw [hres]
      simpa using h9

/-- A parent with more than 1.5 times the text of its child: the resolver stops
at the child, the `article` 3 of `ratioPage`. -/
theorem ratioPage_container :
    (getContainerElementForNode { root := ratioPage, body := 1 } 5).map DNode.id = some 3 := by
  decide!

/-! ## Facts about the document tree -/

namespace DNode

theorem find_self (i : Nat) (n : DNode) (h : n.id = i) : find i n = some n := by
  cases n with
  | text j v => simp only [id] at h; simp [find, h]
  | elem j t cl cs => simp only [id] at h; simp [find, h]

theorem mark_id (cls : String) (n : DNode) : (mark cls n).id = n.id := by
  cases n <;> rfl

mutual
theorem addClass_none (i : Nat) (cls : String) : ∀ n : DNode,
    find i n = none → addClass i cls n = none
  | text j v => by
    intro h
    by_cases hj : j = i
    · simp [find, hj] at h
    · simp [addClass, hj]
  | elem j t cl cs => by
    intro h
    by_cases hj : j = i
    · simp [find, hj] at h
    · simp only [find, hj, if_false] at h
      simp [addClass, hj, addClassList_none i cls cs h]
theorem addClassList_none (i : Nat) (cls : String) : ∀ l : List DNode,
    findList i l = none → addClassList i cls l = none
  | [] => by intro _; rfl
  | c :: cs => by
    intro h
    simp only [findList] at h
    cases hc : find i c with
    | some r => simp [hc] at h
    | none =>
      simp only [hc] at h
      simp [addClassList, addClass_none i cls c hc, addClassList_none i cls cs h]
end

mutual
theorem addClass_some (i : Nat) (cls : String) : ∀ (n m : DNode),
    find i n = some m →
      ∃ n2, addClass i cls n = some n2 ∧ find i n2 = some (mark cls m) ∧ n2.id = n.id
  | text j v, m => by
    intro h
    by_cases hj : j = i
    · simp only [find, hj, if_true, Option.some.injEq] at h
      subst h
      exact ⟨text j v, by simp [addClass, hj], by simp [find, hj, mark], rfl⟩
    · simp [find, hj] at h
  | elem j t cl cs, m => by
    intro h
    by_cases hj : j = i
    · simp only [find, hj, if_true, Option.some.injEq] at h
      subst h
      exact ⟨elem j t (addToken cl cls) cs, by simp [addClass, hj], by simp [find, hj, mark], rfl⟩
    · simp only [find, hj, if_false] at h
      obtain ⟨l2, h1, h2⟩ := addClassList_some i cls cs m h
      exact ⟨elem j t cl l2, by simp [addClass, hj, h1], by simp [find, hj, h2], rfl⟩
theorem addClassList_some (i : Nat) (cls : String) : ∀ (l : List DNode) (m : DNode),
    findList i l = some m →
      ∃ l2, addClassList i cls l = some l2 ∧ findList i l2 = some (mark cls m)
  | [], m => by
    intro h
    simp [findList] at h
  | c :: cs, m => by
    intro h
    simp only [findList] at h
    cases hc : find i c with
    | some r =>
      simp only [hc, Option.some.injEq] at h
      subst h
      obtain ⟨c2, h1, h2, _⟩ := addClass_some i cls c r hc
      exact ⟨c2 :: cs, by simp [addClassList, h1], by simp [findList, h2]⟩
    | none =>
      simp only [hc] at h
      obtain ⟨l2, h1, h2⟩ := addClassList_some i cls cs m h
      exact ⟨c :: l2, by simp [addClassList, addClass_none i cls c hc, h1],
        by simp [findList, hc, h2]⟩
end

end DNode

namespace DNode

theorem addClass_self (i : Nat) (cls : String) (n : DNode) (h : n.id = i) :
    addClass i cls n = some (mark cls n) := by
  cases n with
  | text j v => simp only [id] at h; simp [addClass, h, mark]
  | elem j t cl cs => simp only [id] at h; simp [addClass, h, mark]

mutual
theorem insertAfter_find (ref : Nat) (new : DNode) : ∀ (n n2 : DNode),
    insertAfter ref new n = some n2 →
      (find ref n2).map classList = (find ref n).map classList ∧ n2.id = n.id
  | text j v, n2 => by
    intro h
    simp [insertAfter] at h
  | elem j t cl cs, n2 => by
    intro h
    simp only [insertAfter, Option.map_eq_some'] at h
    obtain ⟨l2, h1, rfl⟩ := h
    by_cases hj : j = ref
    · simp [find, hj, classList, id]
    · simp [find, hj, insertAfterList_find ref new cs l2 h1, id]
theorem insertAfterList_find (ref : Nat) (new : DNode) : ∀ (l l2 : List DNode),
    insertAfterList ref new l = some l2 →
      (findList ref l2).map classList = (findList ref l).map classList
  | [], l2 => by
    intro h
    simp [insertAfterList] at h
  | c :: cs, l2 => by
    intro h
    simp only [insertAfterList] at h
    by_cases hc : c.id = ref
    · simp only [hc, if_true, Option.some.injEq] at h
      subst h
      simp [findList, find_self ref c hc]
    · simp only [hc, if_false] at h
      cases hi : insertAfter ref new c with
      | some c2 =>
        simp only [hi, Option.some.injEq] at h
        subst h
        obtain ⟨h1, _⟩ := insertAfter_find ref new c c2 hi
        simp only [findList]
        cases h2 : find ref c2 with
        | none =>
          rw [h2] at h1
          cases h3 : find ref c with
          | none => rfl
          | some r => rw [h3] at h1; simp at h1
        | some r2 =>
          rw [h2] at h1
          cases h3 : find ref c with
          | none => rw [h3] at h1; simp at h1
          | some r => rw [h3] at h1; simpa using h1
      | none =>
        simp only [hi, Option.map_eq_some'] at h
        obtain ⟨cs2, h1, rfl⟩ := h
        simp only [findList]
        cases h3 : find ref c with
        | none => exact insertAfterList_find ref new cs cs2 h1
        | some r => rfl
end

mutual
theorem addClass_nextSiblings (i : Nat) (cls : String) : ∀ (n n2 : DNode),
    addClass i cls n = some n2 → nextSiblings i n2 = nextSiblings i n ∧ n2.id = n.id
  | text j v, n2 => by
    intro h
    by_cases hj : j = i
    · subst hj
      simp only [addClass, if_true, Option.some.injEq] at h
      subst h
      exact ⟨rfl, rfl⟩
    · simp [addClass, hj] at h
  | elem j t cl cs, n2 => by
    intro h
    by_cases hj : j = i
    · subst hj
      simp only [addClass, if_true, Option.some.injEq] at h
      subst h
      exact ⟨rfl, rfl⟩
    · simp only [addClass, hj, if_false, Option.map_eq_some'] at h
      obtain ⟨l2, h1, rfl⟩ := h
      exact ⟨by simp [nextSiblings, addClassList_nextSiblings i cls cs l2 h1], rfl⟩
theorem addClassList_nextSiblings (i : Nat) (cls : String) : ∀ (l l2 : List DNode),
    addClassList i cls l = some l2 → nextSiblingsList i l2 = nextSiblingsList i l
  | [], l2 => by
    intro h
    simp [addClassList] at h
  | c :: cs, l2 => by
    intro h
    simp only [addClassList] at h
    cases ha : addClass i cls c with
    | some c2 =>
      simp only [ha, Option.some.injEq] at h
      subst h
      obtain ⟨h1, h2⟩ := addClass_nextSiblings i cls c c2 ha
      simp [nextSiblingsList, h1, h2]
    | none =>
      simp only [ha, Option.map_eq_some'] at h
      obtain ⟨cs2, h1, rfl⟩ := h
      have hc : c.id ≠ i := by
        intro hc
        rw [addClass_self i cls c hc] at ha
        cases ha
      simp only [nextSiblingsList, hc, if_false]
      cases h3 : nextSiblings i c with
      | none => exact addClassList_nextSiblings i cls cs cs2 h1
      | some r => rfl
end

mutual
theorem insertAfter_none (ref : Nat) (new : DNode) : ∀ n : DNode,
    nextSiblings ref n = none → insertAfter ref new n = none
  | text j v => by
    intro _
    rfl
  | elem j t cl cs => by
    intro h
    simp only [nextSiblings] at h
    simp [insertAfter, insertAfterList_none ref new cs h]
theorem insertAfterList_none (ref : Nat) (new : DNode) : ∀ l : List DNode,
    nextSiblingsList ref l = none → insertAfterList ref new l = none
  | [] => by
    intro _
    rfl
  | c :: cs => by
    intro h
    simp only [nextSiblingsList] at h
    by_cases hc : c.id = ref
    · simp [hc] at h
    · simp only [hc, if_false] at h
      cases h3 : nextSiblings ref c with
      | some r => simp [h3] at h
      | none =>
        simp only [h3] at h
        simp [insertAfterList, hc, insertAfter_none ref new c h3,
          insertAfterList_none ref new cs h]
end

mutual
theorem insertAfter_some (ref : Nat) (new : DNode) : ∀ (n : DNode) (r : List DNode),
    nextSiblings ref n = some r →
      ∃ n2, insertAfter ref new n = some n2 ∧ nextSiblings ref n2 = some (new :: r) ∧
        n2.id = n.id
  | text j v, r => by
    intro h
    simp [nextSiblings] at h
  | elem j t cl cs, r => by
    intro h
    simp only [nextSiblings] at h
    obtain ⟨l2, h1, h2⟩ := insertAfterList_some ref new cs r h
    exact ⟨elem j t cl l2, by simp [insertAfter, h1], by simp [nextSiblings, h2], rfl⟩
theorem insertAfterList_some (ref : Nat) (new : DNode) : ∀ (l : List DNode) (r : List DNode),
    nextSiblingsList ref l = some r →
      ∃ l2, insertAfterList ref new l = some l2 ∧ nextSiblingsList ref l2 = some (new :: r)
  | [], r => by
    intro h
    simp [nextSiblingsList] at h
  | c :: cs, r => by
    intro h
    simp only [nextSiblingsList] at h
    by_cases hc : c.id = ref
    · simp only [hc, if_true, Option.some.injEq] at h
      subst h
      exact ⟨c :: new :: cs, by simp [insertAfterList, hc], by simp [nextSiblingsList, hc]⟩
    · simp only [hc, if_false] at h
      cases h3 : nextSiblings ref c with
      | some r2 =>
        simp only [h3, Option.some.injEq] at h
        subst h
        obtain ⟨c2, h1, h2, h4⟩ := insertAfter_some ref new c r2 h3
        refine ⟨c2 :: cs, by simp [insertAfterList, hc, h1], ?_⟩
        simp [nextSiblingsList, h4, hc, h2]
      | none =>
        simp only [h3] at h
        obtain ⟨l2, h1, h2⟩ := insertAfterList_some ref new cs r h
        refine ⟨c :: l2, by simp [insertAfterList, hc, insertAfter_none ref new c h3, h1], ?_⟩
        simp [nextSiblingsList, hc, h3, h2]
end

mutual
theorem ancestors_isSome (i : Nat) : ∀ n : DNode,
    (ancestors i n).isSome = (decide (n.id = i) || (nextSiblings i n).isSome)
  | text j v => by
    by_cases hj : j = i <;> simp [ancestors, nextSiblings, id, hj]
  | elem j t cl cs => by
    by_cases hj : j = i
    · simp [ancestors, id, hj]
    · simp [ancestors, nextSiblings, id, hj, ancestorsList_isSome i cs]
theorem ancestorsList_isSome (i : Nat) : ∀ l : List DNode,
    (ancestorsList i l).isSome = (nextSiblingsList i l).isSome
  | [] => rfl
  | c :: cs => by
    have h1 := ancestors_isSome i c
    have h2 := ancestorsList_isSome i cs
    simp only [ancestorsList, nextSiblingsList]
    by_cases hc : c.id = i
    · simp only [hc, decide_True, Bool.true_or] at h1
      cases h3 : ancestors i c with
      | none => rw [h3] at h1; cases h1
      | some r => simp [hc]
    · simp only [hc, decide_False, Bool.false_or] at h1
      simp only [hc, if_false]
      cases h3 : ancestors i c with
      | none =>
        rw [h3] at h1
        cases h4 : nextSiblings i c with
        | none => simpa using h2
        | some r => rw [h4] at h1; cases h1
      | some r =>
        rw [h3] at h1
        cases h4 : nextSiblings i c with
        | none => rw [h4] at h1; cases h1
        | some r2 => rfl
end

end DNode

namespace Document

theorem parentElement_isSome_iff (d : Document) (i : Nat) :
    (d.parentElement i).isSome = true ↔
      d.root.id ≠ i ∧ (d.root.nextSiblings i).isSome = true := by
  unfold parentElement
  cases hr : d.root with
  | text j v =>
    by_cases hj : j = i <;> simp [DNode.ancestors, DNode.nextSiblings, hj]
  | elem j t cl cs =>
    by_cases hj : j = i
    · simp [DNode.ancestors, DNode.id, hj]
    · have h := DNode.ancestorsList_isSome i cs
      simp only [DNode.ancestors, hj, if_false, DNode.nextSiblings, DNode.id]
      cases ha : DNode.ancestorsList i cs with
      | none =>
        rw [ha] at h
        simp [← h]
      | some chain =>
        rw [ha] at h
        cases chain <;> simp [← h, hj]

theorem classListAdd_root_id (d : Document) (i : Nat) (cls : String) :
    (d.classListAdd i cls).root.id = d.root.id := by
  unfold classListAdd
  cases h : d.root.addClass i cls with
  | none => rfl
  | some n2 => exact (DNode.addClass_nextSiblings i cls d.root n2 h).2

theorem classListAdd_nextSiblings (d : Document) (i : Nat) (cls : String) :
    (d.classListAdd i cls).root.nextSiblings i = d.root.nextSiblings i := by
  unfold classListAdd
  cases h : d.root.addClass i cls with
  | none => rfl
  | some n2 => exact (DNode.addClass_nextSiblings i cls d.root n2 h).1

theorem classListAdd_classListOf (d : Document) (i : Nat) (cls : String) (m : DNode)
    (h : d.node i = some m) :
    (d.classListAdd i cls).classListOf i = (DNode.mark cls m).classList := by
  obtain ⟨n2, h1, h2, _⟩ := DNode.addClass_some i cls d.root m h
  simp [classListAdd, classListOf, node, h1, h2]

theorem classListAdd_node (d : Document) (i : Nat) (cls : String) (m : DNode)
    (h : d.node i = some m) :
    (d.classListAdd i cls).node i = some (DNode.mark cls m) := by
  obtain ⟨n2, h1, h2, _⟩ := DNode.addClass_some i cls d.root m h
  simp [classListAdd, node, h1, h2]

theorem insertAfter_classListOf (d : Document) (i : Nat) (new : DNode) :
    (d.insertAfter i new).classListOf i = d.classListOf i := by
  unfold insertAfter classListOf node
  cases h : DNode.insertAfter i new d.root with
  | none => rfl
  | some n2 =>
    have h1 := (DNode.insertAfter_find i new d.root n2 h).1
    simp only [Option.getD_some]
    cases h2 : DNode.find i n2 with
    | none =>
      rw [h2] at h1
      cases h3 : DNode.find i d.root with
      | none => rfl
      | some r => rw [h3] at h1; simp at h1
    | some r2 =>
      rw [h2] at h1
      cases h3 : DNode.find i d.root with
      | none => rw [h3] at h1; simp at h1
      | some r => rw [h3] at h1; simpa using h1

theorem insertAfter_nextSiblings (d : Document) (i : Nat) (new : DNode) (r : List DNode)
    (h : d.root.nextSiblings i = some r) :
    (d.insertAfter i new).root.nextSiblings i = some (new :: r) ∧
      (d.insertAfter i new).root.id = d.root.id := by
  obtain ⟨n2, h1, h2, h3⟩ := DNode.insertAfter_some i new d.root r h
  simp [insertAfter, h1, h2, h3]

end Document

/-! ## The suppressor -/

theorem addToken_mem (cl : List String) (cls : String) : cls ∈ DNode.addToken cl cls := by
  by_cases h : cls ∈ cl
  · simp [DNode.addToken, h]
  · simp [DNode.addToken, h]

theorem addToken_of_mem (cl : List String) (cls : String) (h : cls ∈ cl) :
    DNode.addToken cl cls = cl := by
  simp [DNode.addToken, h]

theorem blockContentElement_logged (w : World) (el : Nat) (text : JsString) :
    (blockContentElement w (some el) text).logged =
      w.logged ++ [{ text := text, url := w.href, time := w.now }] := rfl

theorem blockContentElement_classListOf (w : World) (el : Nat) (text : JsString) (m : DNode)
    (h : w.doc.node el = some m) :
    (blockContentElement w (some el) text).doc.classListOf el =
      (DNode.mark blurredClass m).classList := by
  simp only [blockContentElement, logBlockedContent]
  cases hp : (w.doc.classListAdd el blurredClass).parentElement el with
  | none => exact Document.classListAdd_classListOf w.doc el blurredClass m h
  | some p =>
    simp only []
    rw [Document.insertAfter_classListOf]
    exact Document.classListAdd_classListOf w.doc el blurredClass m h

theorem blockContentElement_labels (w : World) (el : Nat) (text : JsString)
    (hparent : (w.doc.parentElement el).isSome = true) :
    ((blockContentElement w (some el) text).doc.parentElement el).isSome = true ∧
    labelsAfter (blockContentElement w (some el) text).doc el = labelsAfter w.doc el + 1 := by
  rw [Document.parentElement_isSome_iff] at hparent
  obtain ⟨hid, hsib⟩ := hparent
  have hmarked : ((w.doc.classListAdd el blurredClass).parentElement el).isSome = true := by
    rw [Document.parentElement_isSome_iff, Document.classListAdd_root_id,
      Document.classListAdd_nextSiblings]
    exact ⟨hid, hsib⟩
  cases hr : w.doc.root.nextSiblings el with
  | none => rw [hr] at hsib; cases hsib
  | some r =>
    have hr2 : (w.doc.classListAdd el blurredClass).root.nextSiblings el = some r := by
      rw [Document.classListAdd_nextSiblings, hr]
    simp only [blockContentElement, logBlockedContent]
    cases hp : (w.doc.classListAdd el blurredClass).parentElement el with
    | none => rw [hp] at hmarked; cases hmarked
    | some p =>
      simp only []
      obtain ⟨h1, h2⟩ := Document.insertAfter_nextSiblings (w.doc.classListAdd el blurredClass)
        el (.elem (w.doc.classListAdd el blurredClass).freshId "span" [labelClass]
          [.text ((w.doc.classListAdd el blurredClass).freshId + 1) labelText]) r hr2
      constructor
      · rw [Document.parentElement_isSome_iff, h1, h2, Document.classListAdd_root_id]
        exact ⟨hid, rfl⟩
      · rw [labelsAfter, labelsAfter, Document.nextSiblings, Document.nextSiblings, h1, hr]
        simp [isLabel]

/-- C4, as amended: for every element that has a parent element, calling
`blockContentElement` twice leaves the element with the suppression marker
class exactly as one call does, but each call inserts a label of its own, so
two more label elements follow the element after the second call, and each call
appends an audit entry. -/
theorem blockContentElement_twice (w : World) (el : Nat) (first second : JsString) (m : DNode)
    (helem : w.doc.node el = some m) (hkind : m.isText = false)
    (hparent : (w.doc.parentElement el).isSome = true) :
    blurredClass ∈ (blockContentElement w (some el) first).doc.classListOf el ∧
    (blockContentElement (blockContentElement w (some el) first) (some el) second).doc.classListOf
        el = (blockContentElement w (some el) first).doc.classListOf el ∧
    labelsAfter (blockContentElement w (some el) first).doc el = labelsAfter w.doc el + 1 ∧
    labelsAfter
        (blockContentElement (blockContentElement w (some el) first) (some el) second).doc el =
      labelsAfter w.doc el + 2 ∧
    (blockContentElement (blockContentElement w (some el) first) (some el) second).logged =
      w.logged ++ [{ text := first, url := w.href, time := w.now },
        { text := second, url := w.href, time := w.now }] := by
  have hclass := blockContentElement_classListOf w el first m helem
  have hmem : blurredClass ∈ (blockContentElement w (some el) first).doc.classListOf el := by
    rw [hclass]
    cases m with
    | text j v => cases hkind
    | elem j t cl cs => exact addToken_mem cl blurredClass
  obtain ⟨hp1, hl1⟩ := blockContentElement_labels w el first hparent
  obtain ⟨_, hl2⟩ := blockContentElement_labels (blockContentElement w (some el) first) el
    second hp1
  refine ⟨hmem, ?_, hl1, by rw [hl2, hl1], ?_⟩
  · cases hnode : (blockContentElement w (some el) first).doc.node el with
    | none => simp [Document.classListOf, hnode] at hmem
    | some m2 =>
      rw [blockContentElement_classListOf _ el second m2 hnode]
      have hm2 : (blockContentElement w (some el) first).doc.classListOf el = m2.classList := by
        simp [Document.classListOf, hnode]
      rw [hm2] at hmem ⊢
      cases m2 with
      | text j v => rfl
      | elem j t cl cs => exact addToken_of_mem cl blurredClass hmem
  · rw [blockContentElement_logged, blockContentElement_logged]
    simp only [List.append_assoc, List.singleton_append]
    rfl

/-- The paragraph of `insultPage`, blocked twice. -/
theorem blockContentElement_twice_witness :
    ((freshWorld insultPage).doc.node 3 =
        some (.elem 3 "p" [] [.text 4 "You are an idiot".toList]) ∧
      (DNode.elem 3 "p" [] [.text 4 "You are an idiot".toList]).isText = false ∧
      ((freshWorld insultPage).doc.parentElement 3).isSome = true) ∧
    labelsAfter
        (blockContentElement
          (blockContentElement (freshWorld insultPage) (some 3) "You are an idiot".toList)
          (some 3) "You are an idiot".toList).doc 3 =
      labelsAfter (freshWorld insultPage).doc 3 + 2 :=
  ⟨⟨rfl, rfl, by decide!⟩,
    (blockContentElement_twice (freshWorld insultPage) 3 "You are an idiot".toList
      "You are an idiot".toList (.elem 3 "p" [] [.text 4 "You are an idiot".toList])
      rfl rfl (by decide!)).2.2.2.1⟩

/-- C4 as stated fails: the paragraph of `insultPage` has a parent, one call of
`blockContentElement` puts one label after it, and a second call puts a second
label after it, so the two states do not look the same. -/
theorem blockContentElement_twice_counterexample :
    ((freshWorld insultPage).doc.parentElement 3).isSome = true ∧
    labelsAfter
      (blockContentElement (freshWorld insultPage) (some 3) "You are an idiot".toList).doc 3 = 1 ∧
    labelsAfter
      (blockContentElement
        (blockContentElement (freshWorld insultPage) (some 3) "You are an idiot".toList)
        (some 3) "You are an idiot".toList).doc 3 = 2 ∧
    ((blockContentElement
        (blockContentElement (freshWorld insultPage) (some 3) "You are an idiot".toList)
        (some 3) "You are an idiot".toList).doc.nextSiblings 3).map DNode.classList =
      [[labelClass], [labelClass]] := by
  decide!

/-! ## The scanner -/

/-- C3 on the code: one pass of `scanDocument` over
`<body><div><p>hello<br>world</p></div></body>` calls `analyzeText` twice with
the `div` (element 2) as container, once for each text node of the paragraph:
the second node is not skipped because its parent, the `p`, is not the element
that was recorded as processed. -/
theorem scanDocument_container_twice :
    (scanDocument 10 (freshWorld twoLinePage) none).map
        (fun w => (w.calls.filter fun c => !c.isScan).map Call.element) =
      some [some 2, some 2] ∧
    (getContainerElementForNode (freshWorld twoLinePage).doc 4).map DNode.id = some 2 ∧
    (getContainerElementForNode (freshWorld twoLinePage).doc 6).map DNode.id = some 2 ∧
    ((freshWorld twoLinePage).doc.parentElement 6).map DNode.id = some 3 := by
  decide!

/-! ## The mutation tracker -/

/-- C7 on the code: after the events `toggleWhileLoading` the extension is
disabled, yet the observer created first is still subscribed (the listener
disconnected only the observer created last); when the host page then adds a
paragraph, the record reaches that observer, which calls `scanDocument` on the
new paragraph (element 5) and `analyzeText` on its text. -/
theorem disable_leaves_observer :
    (run 10 (freshWorld greetingPage) toggleWhileLoading).map
        (fun w => (w.enabled, w.observing, w.mutationObserver, w.calls.length)) =
      some (false, [0], some 1, 4) ∧
    (run 10 (freshWorld greetingPage) (toggleWhileLoading ++ paragraphAdded)).map
        (fun w => (w.enabled, (w.calls.drop 4).map fun c => (c.isScan, c.element))) =
      some (false, [(true, some 5), (false, some 5)]) := by
  decide!

theorem orElse_asElement_text (container : Option Nat) (i : Nat) (v : JsString) :
    (container <|> (NodeOrText.node (.text i v)).asElement) = container := by
  cases container <;> rfl

/-- C9, as amended: for every in-place edit of a text node delivered while one
observer is subscribed, the handler calls `analyzeText` with the node and the
node's parent element, so the text that is judged is the node's own value and
the element that is suppressed when it is judged toxic, by a keyword or by the
classifier, is the parent element of the node; `getContainerElementForNode` is
not consulted. -/
theorem characterData_blocks_parent (fuel : Nat) (w : World) (observer target : Nat)
    (value : JsString) (hactive : w.observing = [observer])
    (hnode : w.doc.node target = some (.text target value)) :
    step fuel w (.mutationBatch [{ type := .characterData, target := target, addedNodes := [] }]) =
      some (analyzeText w (.node (.text target value))
        ((w.doc.parentElement target).map DNode.id)) ∧
    (containsHateKeyword value = true →
      analyzeText w (.node (.text target value)) ((w.doc.parentElement target).map DNode.id) =
        blockContentElement
          { w with calls := w.calls ++ [.analyzeText (.node (.text target value))
              ((w.doc.parentElement target).map DNode.id)] }
          ((w.doc.parentElement target).map DNode.id) value) ∧
    (isBlank value = false → containsHateKeyword value = false → w.toxicityModel = true →
      (analyzeText w (.node (.text target value))
          ((w.doc.parentElement target).map DNode.id)).classifying =
        w.classifying ++
          [{ text := value, targetElem := (w.doc.parentElement target).map DNode.id }]) := by
  refine ⟨?_, ?_, ?_⟩
  · simp [step, hactive, deliver, observerCallback, handleAddedNodes, handleCharacterData, hnode]
  · intro hk
    have hb : isBlank value = false := by
      cases hbl : isBlank value with
      | false => rfl
      | true => rw [containsHateKeyword_of_blank _ hbl] at hk; cases hk
    simp [analyzeText, NodeOrText.text, hk, hb, orElse_asElement_text]
  · intro hb hk hm
    simp [analyzeText, NodeOrText.text, hk, hb, hm, orElse_asElement_text]

/-- The edit of the text node 4 of `insultPage`, delivered in `watchingWorld`. -/
theorem characterData_blocks_parent_witness :
    (watchingWorld.observing = [0] ∧
      watchingWorld.doc.node 4 = some (.text 4 "You are an idiot".toList)) ∧
    step 10 watchingWorld
        (.mutationBatch [{ type := .characterData, target := 4, addedNodes := [] }]) =
      some (analyzeText watchingWorld (.node (.text 4 "You are an idiot".toList))
        ((watchingWorld.doc.parentElement 4).map DNode.id)) :=
  ⟨⟨rfl, rfl⟩,
    (characterData_blocks_parent 10 watchingWorld 0 4 "You are an idiot".toList rfl rfl).1⟩

/-- C9 as stated fails: after the events `textEdited` the element that carries
the suppression marker is the parent `p` (element 3) of the edited text node,
while `getContainerElementForNode` returns the `div` (element 2) for that node,
and the `div` is not marked. -/
theorem characterData_counterexample :
    (getContainerElementForNode { root := insultPage, body := 1 } 4).map DNode.id = some 2 ∧
    (run 10 (freshWorld greetingPage) textEdited).map
        (fun w => (w.doc.classListOf 3, w.doc.classListOf 2, w.logged.map fun e => e.text)) =
      some ([blurredClass], [], ["You are an idiot".toList]) := by
  decide!

/-! ## The scenario of the specification and a remark on the scanner -/

/-- The text `You are an idiot` with the paragraph of `insultPage` as container:
the paragraph gains the marker class and one label after it, one audit entry
with that text, the URL and the time is made, and no `classify` call is left. -/
theorem analyzeText_idiot_scenario :
    (analyzeText watchingWorld (.string "You are an idiot".toList) (some 3)).doc.classListOf 3 =
      [blurredClass] ∧
    labelsAfter
      (analyzeText watchingWorld (.string "You are an idiot".toList) (some 3)).doc 3 = 1 ∧
    (analyzeText watchingWorld (.string "You are an idiot".toList) (some 3)).logged.map
        (fun e => (e.text, e.url, e.time)) =
      [("You are an idiot".toList, watchingWorld.href, watchingWorld.now)] ∧
    (analyzeText watchingWorld (.string "You are an idiot".toList) (some 3)).classifying.length =
      0 := by
  decide!

/-- The text of the label itself contains the keyword `hate`, and the walker of
`scanDocument` reads the tree as it is: on `insultPage` the scan blocks the
`div`, reaches the label just inserted after it, blocks that label, reaches the
next label, and so on; the loop has not ended after 50 steps. -/
theorem scanDocument_rescans_labels :
    containsHateKeyword labelText = true ∧
    (scanDocument 50 (freshWorld insultPage) none).isNone = true := by
  decide!

end HateBlock
